import Mathlib

/-!
Shallow embedding of the Flask file-storage service in src/app.py.

Strings are modelled with Lean String (lists of characters); Python string
operations (strip, rsplit, split, startswith, substring membership) are
translated character by character.  The POSIX filesystem is modelled as an
association list from normalized absolute paths (lists of path segments) to
entries; path resolution by the kernel is modelled by segment normalization
(empty and dot segments dropped, dot-dot segments popping one level, with
dot-dot at the root staying at the root), without symlinks.  Machine features
the claims do not touch (calendar rendering of timestamps, raw multipart
parsing) are abstracted as uninterpreted data carried through unchanged.
-/

/-- Characters that Python str.strip() with no argument removes: the six
common ASCII whitespace characters (the rarer separator control characters
and non-ASCII spaces Python also treats as whitespace are not modelled; no
claim depends on them). -/
def isPySpace (c : Char) : Bool :=
  c = ' ' || c = '\t' || c = '\n' || c = '\x0d' || c = '\x0b' || c = '\x0c'

/-- Python s.strip with a slash argument: remove leading and trailing slash
characters (src/app.py lines 39, 89, 193, 226). -/
def stripSlashes (s : String) : String :=
  String.mk (((s.toList.dropWhile (fun c => c = '/')).reverse.dropWhile
    (fun c => c = '/')).reverse)

/-- Python s.strip() with no argument: remove leading and trailing whitespace
(src/app.py line 90). -/
def stripWS (s : String) : String :=
  String.mk (((s.toList.dropWhile isPySpace).reverse.dropWhile isPySpace).reverse)

/-- Substring test on character lists, modelling the Python membership test
pat in s for strings. -/
def hasSub : List Char → List Char → Bool
  | [], pat => pat.isEmpty
  | l@(_ :: t), pat => pat.isPrefixOf l || hasSub t pat

/-- Python substring membership pat in s. -/
def strHasSub (s pat : String) : Bool := hasSub s.toList pat.toList

/-- The characters after the last occurrence of c (the whole list when c is
absent); models the second component of Python s.rsplit(c, 1). -/
def afterLast (l : List Char) (c : Char) : List Char :=
  (l.reverse.takeWhile (fun x => x ≠ c)).reverse

/-- The characters before the last occurrence of c (empty when c is absent);
models the first component of Python s.rsplit(c, 1). -/
def beforeLast (l : List Char) (c : Char) : List Char :=
  ((l.reverse.dropWhile (fun x => x ≠ c)).drop 1).reverse

/-- ASCII lower-casing of one character, as Python str.lower() acts on the
ASCII range (all extensions compared by the service are ASCII): code points
65 to 90 are the upper-case letters and shift by 32. -/
def lowerChar (c : Char) : Char :=
  if 65 ≤ c.toNat ∧ c.toNat ≤ 90 then Char.ofNat (c.toNat + 32) else c

/-- ASCII lower-casing of a string. -/
def lowerStr (s : String) : String := String.mk (s.toList.map lowerChar)

/-- Whether a string starts with a slash, modelling s.startswith of a slash
(src/app.py line 152) and the posixpath.join branch test. -/
def startsWithSlash (s : String) : Bool := s.toList.head? = some '/'

/-- Whether a string ends with a slash (posixpath.join branch test). -/
def endsWithSlash (s : String) : Bool := s.toList.getLast? = some '/'

/-- CPython posixpath.join for two arguments: if the second part is absolute
it replaces the first; otherwise the parts are joined with a single slash
unless the first part is empty or already ends in a slash. -/
def os_path_join (a b : String) : String :=
  if startsWithSlash b then b
  else if a = "" ∨ endsWithSlash a then a ++ b
  else a ++ "/" ++ b

/-- Python s.split on the slash character: list of slash-separated segments,
keeping empty segments (an empty string gives one empty segment). -/
def splitSlash : List Char → List String
  | [] => [""]
  | c :: cs =>
    if c = '/' then "" :: splitSlash cs
    else
      match splitSlash cs with
      | [] => [String.mk [c]]
      | s :: rest => String.mk (c :: s.toList) :: rest

/-- One step of POSIX path normalization on an absolute path: empty and dot
segments are dropped, a dot-dot segment pops the last segment (staying at the
root when already there), other segments are appended. -/
def normStep (acc : List String) (seg : String) : List String :=
  if seg = "" ∨ seg = "." then acc
  else if seg = ".." then acc.dropLast
  else acc ++ [seg]

/-- The normalized segment list of an absolute path string: the sequence of
directory-entry names the kernel resolves the path to (no symlinks). -/
def pathKey (s : String) : List String :=
  (splitSlash s.toList).foldl normStep []

/-- Storage root directory configured at startup (src/app.py line 18). -/
def UPLOAD_FOLDER : String := "/app/files"

/-- The normalized segments of the Storage Root. -/
def rootKey : List String := ["app", "files"]

/-- Extensions accepted by the service (src/app.py line 20). -/
def ALLOWED_EXTENSIONS : List String :=
  ["txt", "pdf", "png", "jpg", "jpeg", "gif", "doc", "docx", "xls", "xlsx",
   "zip", "rar"]

/-- src/app.py lines 28-33: a filename is allowed when it contains a dot and
the lower-cased text after its last dot is an allowed extension. -/
def allowed_file (filename : String) : Bool :=
  filename.toList.contains '.' &&
    ALLOWED_EXTENSIONS.contains (lowerStr (String.mk (afterLast filename.toList '.')))

/-- A path is under the Storage Root when its normalized segments extend (or
equal) the root's normalized segments. -/
def underRoot (s : String) : Prop :=
  (pathKey s).take rootKey.length = rootKey

instance underRoot_decidable (s : String) : Decidable (underRoot s) :=
  inferInstanceAs (Decidable ((pathKey s).take rootKey.length = rootKey))

/-- Characters kept by the werkzeug secure_filename character class
(ASCII letters, digits, underscore, dot, hyphen). -/
def isSafeChar (c : Char) : Bool :=
  c.isAlpha || c.isDigit || c = '_' || c = '.' || c = '-'

/-- Dot or underscore, stripped from both ends by secure_filename. -/
def isDotUnderscore (c : Char) : Bool := c = '.' || c = '_'

/-- werkzeug.utils.secure_filename on POSIX, as imported by src/app.py:
NFKD-normalize and keep only ASCII (modelled as dropping code points at 128
and above, which is exact for ASCII inputs), replace the path separator by a
space (altsep is None on POSIX), split on whitespace and rejoin the nonempty
tokens with underscores, delete every character outside the safe class, then
strip leading and trailing dots and underscores.  The Windows device-name
branch is dead on POSIX and is omitted. -/
def secure_filename (s : String) : String :=
  let asciiOnly := s.toList.filter (fun c => c.toNat < 128)
  let sepGone := asciiOnly.map (fun c => if c = '/' then ' ' else c)
  let joined := List.intercalate ['_']
      ((List.splitOnP isPySpace sepGone).filter (fun t => !t.isEmpty))
  let safe := joined.filter isSafeChar
  String.mk (((safe.dropWhile isDotUnderscore).reverse.dropWhile
      isDotUnderscore).reverse)

/-- The basename part of a path: the characters after the last slash. -/
def baseNamePart (l : List Char) : List Char :=
  (l.reverse.takeWhile (fun c => c ≠ '/')).reverse

/-- The directory part of a path, up to and including the last slash. -/
def dirPartIncl (l : List Char) : List Char :=
  (l.reverse.dropWhile (fun c => c ≠ '/')).reverse

/-- CPython posixpath.splitext on character lists: split the basename at its
last dot, provided some character before that dot in the basename is not
itself a dot (an all-dots prefix means no extension); the extension includes
the dot. -/
def splitextChars (l : List Char) : List Char × List Char :=
  if (baseNamePart l).contains '.' &&
      (beforeLast (baseNamePart l) '.').any (fun c => c ≠ '.') then
    (dirPartIncl l ++ beforeLast (baseNamePart l) '.',
      '.' :: afterLast (baseNamePart l) '.')
  else (l, [])

/-- CPython os.path.splitext (src/app.py line 110). -/
def os_path_splitext (s : String) : String × String :=
  ((splitextChars s.toList).1 |> String.mk, (splitextChars s.toList).2 |> String.mk)

/-- A filesystem entry: a regular file with its byte content and modification
time, or a directory with its modification time. -/
inductive Entry where
  | file (content : List Nat) (mtime : Nat)
  | dir (mtime : Nat)
deriving DecidableEq, Repr

/-- The filesystem: an association list from normalized absolute paths
(segment lists) to entries.  Later operations cons at the front and erase
stale bindings, so the key list stays duplicate-free. -/
structure FS where
  entries : List (List String × Entry)
deriving DecidableEq, Repr

/-- Lookup of a key in an entry list. -/
def lookupKey : List (List String × Entry) → List String → Option Entry
  | [], _ => none
  | (k, e) :: rest, p => if k = p then some e else lookupKey rest p

/-- The entry stored at a normalized path, if any. -/
def FS.find (fs : FS) (p : List String) : Option Entry :=
  lookupKey fs.entries p

/-- os.path.exists on the model. -/
def FS.pathExists (fs : FS) (p : List String) : Bool :=
  (fs.find p).isSome

/-- os.path.isdir on the model. -/
def FS.isDir (fs : FS) (p : List String) : Bool :=
  match fs.find p with
  | some (Entry.dir _) => true
  | _ => false

/-- os.path.getsize on the model (only called on regular files by the code;
other cases default to 0). -/
def FS.getsize (fs : FS) (p : List String) : Nat :=
  match fs.find p with
  | some (Entry.file c _) => c.length
  | _ => 0

/-- os.path.getmtime on the model. -/
def FS.getmtime (fs : FS) (p : List String) : Nat :=
  match fs.find p with
  | some (Entry.file _ t) => t
  | some (Entry.dir t) => t
  | none => 0

/-- Writing a regular file: binds the path to the new content, erasing any
previous binding (werkzeug FileStorage.save truncates an existing target). -/
def FS.write (fs : FS) (p : List String) (content : List Nat) (now : Nat) : FS :=
  ⟨(p, Entry.file content now) :: fs.entries.filter (fun kv => !(kv.1 = p : Bool))⟩

/-- One os.mkdir step: succeeds leaving the filesystem unchanged when the
path is already a directory, raises (none) when it is a regular file, and
creates the directory when absent. -/
def FS.mkdirOne (fs : FS) (p : List String) (now : Nat) : Option FS :=
  match fs.find p with
  | some (Entry.dir _) => some fs
  | some (Entry.file _ _) => none
  | none => some ⟨(p, Entry.dir now) :: fs.entries⟩

/-- Walk the segments of a path, creating each missing directory along the
way (helper for os.makedirs). -/
def FS.mkdirAlong (fs : FS) (pre : List String) (rest : List String) (now : Nat) :
    Option FS :=
  match rest with
  | [] => some fs
  | s :: rest2 =>
    match fs.mkdirOne (pre ++ [s]) now with
    | none => none
    | some fs2 => FS.mkdirAlong fs2 (pre ++ [s]) rest2 now

/-- os.makedirs with exist_ok=True: create the directory and all missing
ancestors; succeed when they already exist as directories, raise (none) when
a regular file is in the way.  (When the real call raises partway it may
leave some ancestors created; no claim depends on that partial state, so the
pre-call filesystem is paired with the failure.) -/
def FS.mkdirAll (fs : FS) (p : List String) (now : Nat) : Option FS :=
  FS.mkdirAlong fs [] p now

/-- The names of the immediate children of a directory, in entry-list
enumeration order, modelling os.listdir output order. -/
def FS.childNames (fs : FS) (p : List String) : List String :=
  fs.entries.filterMap (fun kv =>
    if kv.1 ≠ [] ∧ kv.1.dropLast = p then kv.1.getLast? else none)

/-- os.listdir: the child names when the path is a directory, a raise (none)
when it is a regular file or absent. -/
def FS.listdir (fs : FS) (p : List String) : Option (List String) :=
  match fs.find p with
  | some (Entry.dir _) => some (fs.childNames p)
  | _ => none

/-- Well-formed filesystem: keys are duplicate-free and every key is a list
of clean segments (nonempty, no slash, not dot or dot-dot), as normalized
paths are. -/
def cleanSeg (s : String) : Bool :=
  !(s.toList.contains '/') && !(s = "" : Bool) && !(s = "." : Bool) && !(s = ".." : Bool)

/-- Well-formedness predicate for the filesystem model. -/
def FS.Wf (fs : FS) : Prop :=
  (fs.entries.map Prod.fst).Nodup ∧
    ∀ k ∈ fs.entries.map Prod.fst, ∀ seg ∈ k, cleanSeg seg

instance wf_decidable (fs : FS) : Decidable fs.Wf :=
  inferInstanceAs (Decidable ((fs.entries.map Prod.fst).Nodup ∧
    ∀ k ∈ fs.entries.map Prod.fst, ∀ seg ∈ k, cleanSeg seg))

/-- The filesystem right after startup: the storage root and its ancestors
exist as directories (src/app.py line 26). -/
def initFS : FS :=
  ⟨[(["app", "files"], Entry.dir 0), (["app"], Entry.dir 0), ([], Entry.dir 0)]⟩

/-- src/app.py lines 35-41: join the slash-stripped relative path onto the
storage root, run os.makedirs(..., exist_ok=True) on it, and return the
resulting absolute path. -/
def create_directory (fs : FS) (path : String) (now : Nat) : Option (String × FS) :=
  let full_path := os_path_join UPLOAD_FOLDER (stripSlashes path)
  match fs.mkdirAll (pathKey full_path) now with
  | none => none
  | some fs2 => some (full_path, fs2)

/-- One multipart upload request as the handler sees it: whether a file part
is present, the client-sent filename and bytes, and the optional form fields
(absent fields arrive as the empty string via request.form.get defaults). -/
structure UploadReq where
  hasFile : Bool
  origName : String
  content : List Nat
  formPath : String
  formFilename : String
deriving DecidableEq, Repr

/-- The value of datetime.now() at the moment a handler runs: its
strftime rendering used for collision suffixes, its isoformat rendering, and
the epoch seconds the filesystem stamps on writes. -/
structure Clock where
  ymdHMS : String
  iso : String
  epoch : Nat
deriving DecidableEq, Repr

/-- Responses of the upload endpoint (src/app.py lines 54-142), by error code
and, on success, the data fields of the JSON body. -/
inductive UploadResp where
  | noFile
  | emptyFilename
  | invalidFileType
  | uploadError
  | ok (filename : String) (path : String) (url : String) (size : Nat)
       (uploadTime : String)
deriving DecidableEq, Repr

/-- The HTTP status the upload endpoint pairs with each response. -/
def UploadResp.status : UploadResp → Nat
  | .noFile => 400
  | .emptyFilename => 400
  | .invalidFileType => 400
  | .uploadError => 500
  | .ok _ _ _ _ _ => 200

/-- The machine-readable code field of each upload error response. -/
def UploadResp.code : UploadResp → String
  | .noFile => "NO_FILE"
  | .emptyFilename => "EMPTY_FILENAME"
  | .invalidFileType => "INVALID_FILE_TYPE"
  | .uploadError => "UPLOAD_ERROR"
  | .ok _ _ _ _ _ => ""

/-- The filename computed at src/app.py lines 92-99: a non-empty (stripped)
custom filename is sanitized and given the lower-cased original extension,
otherwise the original filename is sanitized as a whole. -/
def uploadFilename (origName custom_filename : String) : String :=
  if custom_filename ≠ "" then
    secure_filename custom_filename ++ "." ++
      lowerStr (String.mk (afterLast origName.toList '.'))
  else secure_filename origName

/-- src/app.py lines 54-142, the upload handler: reject a missing file part,
an empty client filename, and a disallowed extension; compute the stored
filename; create the target directory when a path was given; on a name
collision insert a timestamp between base name and extension; save the bytes
and answer with the final name, relative path, URL and size. -/
def upload_file (req : UploadReq) (fs : FS) (now : Clock) : UploadResp × FS :=
  if !req.hasFile then (UploadResp.noFile, fs)
  else if req.origName = "" then (UploadResp.emptyFilename, fs)
  else if !(allowed_file req.origName) then (UploadResp.invalidFileType, fs)
  else
    let upload_path := stripSlashes req.formPath
    let custom_filename := stripWS req.formFilename
    let filename := uploadFilename req.origName custom_filename
    match (if upload_path ≠ "" then create_directory fs upload_path now.epoch
           else some (UPLOAD_FOLDER, fs)) with
    | none => (UploadResp.uploadError, fs)
    | some (save_directory, fs1) =>
      let file_path := os_path_join save_directory filename
      let finalName :=
        if fs1.pathExists (pathKey file_path) then
          (os_path_splitext filename).1 ++ "_" ++ now.ymdHMS ++
            (os_path_splitext filename).2
        else filename
      let final_path := os_path_join save_directory finalName
      let fs2 := fs1.write (pathKey final_path) req.content now.epoch
      let rel := if upload_path ≠ "" then upload_path ++ "/" ++ finalName
                 else finalName
      (UploadResp.ok finalName rel ("http://localhost:5000/files/" ++ rel)
        (fs2.getsize (pathKey final_path)) now.iso, fs2)

/-- Responses of the retrieval endpoint (src/app.py lines 144-176).  A path
that exists but is not a regular file makes send_from_directory raise, which
the broad except turns into the ACCESS_ERROR response. -/
inductive DownloadResp where
  | invalidPath
  | fileNotFound
  | accessError
  | ok (content : List Nat)
deriving DecidableEq, Repr

/-- The HTTP status the retrieval endpoint pairs with each response. -/
def DownloadResp.status : DownloadResp → Nat
  | .invalidPath => 400
  | .fileNotFound => 404
  | .accessError => 500
  | .ok _ => 200

/-- The machine-readable code field of each retrieval error response. -/
def DownloadResp.code : DownloadResp → String
  | .invalidPath => "INVALID_PATH"
  | .fileNotFound => "FILE_NOT_FOUND"
  | .accessError => "ACCESS_ERROR"
  | .ok _ => ""

/-- src/app.py lines 144-176, the retrieval handler: reject a path containing
a dot-dot substring or starting with a slash, then join onto the storage
root, answer FILE_NOT_FOUND when nothing exists there, and otherwise serve
the file (dirname/basename recombine to the same path, and
send_from_directory serves exactly a regular file). -/
def download_file (filename : String) (fs : FS) : DownloadResp :=
  if strHasSub filename ".." || startsWithSlash filename then
    DownloadResp.invalidPath
  else
    let file_path := os_path_join UPLOAD_FOLDER filename
    if !(fs.pathExists (pathKey file_path)) then DownloadResp.fileNotFound
    else
      match fs.find (pathKey file_path) with
      | some (Entry.file c _) => DownloadResp.ok c
      | _ => DownloadResp.accessError

/-- Responses of the folder-creation endpoint (src/app.py lines 178-217). -/
inductive FolderResp where
  | missingPath
  | emptyPath
  | createFolderError
  | ok (path : String) (full_path : String) (createdTime : String)
deriving DecidableEq, Repr

/-- The HTTP status the folder-creation endpoint pairs with each response. -/
def FolderResp.status : FolderResp → Nat
  | .missingPath => 400
  | .emptyPath => 400
  | .createFolderError => 500
  | .ok _ _ _ => 200

/-- src/app.py lines 178-217, the folder-creation handler; the body argument
is the path field of the JSON body, none when absent. -/
def create_folder (body : Option String) (fs : FS) (now : Clock) :
    FolderResp × FS :=
  match body with
  | none => (FolderResp.missingPath, fs)
  | some p =>
    let folder_path := stripSlashes p
    if folder_path = "" then (FolderResp.emptyPath, fs)
    else
      match create_directory fs folder_path now.epoch with
      | none => (FolderResp.createFolderError, fs)
      | some (full_path, fs2) =>
        (FolderResp.ok folder_path full_path now.iso, fs2)

/-- One item of the listing response: name, kind, size and modification time
of a child (the isoformat rendering of the time is kept as the raw epoch
seconds, an injective abstraction of the string the code builds). -/
structure ListItem where
  name : String
  type : String
  size : Nat
  modified_time : Nat
deriving DecidableEq, Repr

/-- Responses of the listing endpoint (src/app.py lines 219-259). -/
inductive ListResp where
  | pathNotFound
  | listError
  | ok (path : String) (items : List ListItem) (count : Nat)
deriving DecidableEq, Repr

/-- The HTTP status the listing endpoint pairs with each response. -/
def ListResp.status : ListResp → Nat
  | .pathNotFound => 404
  | .listError => 500
  | .ok _ _ _ => 200

/-- src/app.py lines 219-259, the listing handler: join the slash-stripped
path onto the storage root, answer PATH_NOT_FOUND when nothing exists there,
and otherwise enumerate the children (os.listdir raising on a non-directory
is caught by the broad except as LIST_ERROR); the untouched filesystem is
returned alongside to record that the handler performs no writes. -/
def list_files (folder_path : String) (fs : FS) : ListResp × FS :=
  let target_path := os_path_join UPLOAD_FOLDER (stripSlashes folder_path)
  if !(fs.pathExists (pathKey target_path)) then (ListResp.pathNotFound, fs)
  else
    match fs.listdir (pathKey target_path) with
    | none => (ListResp.listError, fs)
    | some names =>
      let items := names.map (fun n =>
        let k := pathKey (os_path_join target_path n)
        { name := n,
          type := if fs.isDir k then "directory" else "file",
          size := if fs.isDir k then 0 else fs.getsize k,
          modified_time := fs.getmtime k : ListItem })
      (ListResp.ok folder_path items items.length, fs)

/-- The normalized key of the directory a listing request acts on: the
slash-stripped path joined onto the Storage Root (src/app.py line 226). -/
def listKeyOf (p : String) : List String :=
  pathKey (os_path_join UPLOAD_FOLDER (stripSlashes p))

/-! ### Helper lemmas about splitting and normalizing paths -/

/-- Splitting never yields an empty list of segments. -/
theorem splitSlash_ne_nil : ∀ l : List Char, splitSlash l ≠ [] := by
  intro l
  cases l with
  | nil => simp [splitSlash]
  | cons c cs =>
    unfold splitSlash
    split
    · simp
    · split <;> simp

/-- Splitting distributes over a slash that joins two character lists. -/
theorem splitSlash_append (a b : List Char) :
    splitSlash (a ++ '/' :: b) = splitSlash a ++ splitSlash b := by
  induction a with
  | nil => simp [splitSlash]
  | cons c cs ih =>
    by_cases h : c = '/'
    · subst h
      show splitSlash ('/' :: (cs ++ '/' :: b)) = splitSlash ('/' :: cs) ++ splitSlash b
      simp [splitSlash, ih]
    · show splitSlash (c :: (cs ++ '/' :: b)) = splitSlash (c :: cs) ++ splitSlash b
      unfold splitSlash
      rw [if_neg h, if_neg h, ih]
      cases hcs : splitSlash cs with
      | nil => exact absurd hcs (splitSlash_ne_nil cs)
      | cons s rest =>
        simp only [List.cons_append]
        refine congrArg (fun z => String.mk (c :: s.data) :: z) ?_
        cases b <;> rfl

/-- Normalization only appends segments when no dot-dot segment occurs. -/
theorem foldl_normStep_extend :
    ∀ (segs : List String) (acc : List String), (∀ s ∈ segs, s ≠ "..") →
      ∃ rest, List.foldl normStep acc segs = acc ++ rest := by
  intro segs
  induction segs with
  | nil => intro acc _; exact ⟨[], by simp⟩
  | cons s segs ih =>
    intro acc h
    have hs : s ≠ ".." := h s (by simp)
    have h2 : ∀ x ∈ segs, x ≠ ".." := fun x hx => h x (by simp [hx])
    by_cases he : s = "" ∨ s = "."
    · obtain ⟨rest, hr⟩ := ih acc h2
      refine ⟨rest, ?_⟩
      simp only [List.foldl_cons]
      rw [show normStep acc s = acc from by simp [normStep, he]]
      exact hr
    · obtain ⟨rest, hr⟩ := ih (acc ++ [s]) h2
      refine ⟨[s] ++ rest, ?_⟩
      simp only [List.foldl_cons]
      rw [show normStep acc s = acc ++ [s] from by simp [normStep, he, hs]]
      rw [hr, List.append_assoc]

/-- The head surviving dropWhile falsifies the predicate. -/
theorem head?_dropWhile_false {α : Type} (p : α → Bool) :
    ∀ (l : List α) (x : α), (l.dropWhile p).head? = some x → p x = false := by
  intro l
  induction l with
  | nil => intro x h; simp [List.dropWhile] at h
  | cons a t ih =>
    intro x h
    by_cases hp : p a
    · exact ih x (by simpa [List.dropWhile, hp] using h)
    · have : a = x := by simpa [List.dropWhile, hp] using h
      subst this
      simpa using hp

/-- dropWhile removes only from the front: the last element survives unless
everything was removed. -/
theorem getLast?_dropWhile {α : Type} (q : α → Bool) :
    ∀ (r : List α), r.dropWhile q = [] ∨ (r.dropWhile q).getLast? = r.getLast? := by
  intro r
  induction r with
  | nil => left; simp
  | cons a t ih =>
    by_cases hq : q a
    · rcases ih with h | h
      · left; simpa [List.dropWhile, hq] using h
      · cases t with
        | nil => left; simp [List.dropWhile, hq]
        | cons b t2 =>
          right
          rw [show (a :: b :: t2).dropWhile q = (b :: t2).dropWhile q from by
            simp [List.dropWhile, hq]]
          rw [h, List.getLast?_cons_cons]
    · right; simp [List.dropWhile, hq]

/-- A slash-stripped string never starts with a slash. -/
theorem startsWithSlash_stripSlashes (p : String) :
    startsWithSlash (stripSlashes p) = false := by
  unfold startsWithSlash stripSlashes
  simp only [decide_eq_false_iff_not]
  intro hcon
  have hcon2 : ((((p.toList.dropWhile (fun c => c = '/')).reverse.dropWhile
      (fun c => c = '/')).reverse).head? : Option Char) = some '/' := hcon
  rcases getLast?_dropWhile (fun c => c = '/')
      (p.toList.dropWhile (fun c => c = '/')).reverse with h | h
  · rw [h] at hcon2; simp at hcon2
  · rw [List.head?_reverse, h, List.getLast?_reverse] at hcon2
    have := head?_dropWhile_false (fun c => c = '/') p.toList '/' hcon2
    simp at this

/-- Evaluating the string again after String.mk round-trips. -/
theorem mk_toList (s : String) : String.mk s.toList = s := rfl

/-- Joining a non-absolute second part onto the Storage Root inserts one
slash. -/
theorem os_path_join_root (b : String) (h : startsWithSlash b = false) :
    os_path_join UPLOAD_FOLDER b = UPLOAD_FOLDER ++ "/" ++ b := by
  unfold os_path_join
  rw [if_neg (by simp [h]), if_neg (by decide)]

/-- The normalized key of a root-joined path extends the root's segments by
the normalization of the second part. -/
theorem pathKey_root_append (b : String) :
    pathKey (UPLOAD_FOLDER ++ "/" ++ b) =
      List.foldl normStep rootKey (splitSlash b.toList) := by
  unfold pathKey
  have he : (UPLOAD_FOLDER ++ "/" ++ b).toList = "/app/files".toList ++ '/' :: b.toList := by
    show (UPLOAD_FOLDER ++ "/" ++ b).data = "/app/files".data ++ '/' :: b.data
    rw [String.data_append, String.data_append]
    simp [UPLOAD_FOLDER]
  rw [he, splitSlash_append, List.foldl_append]
  have : List.foldl normStep [] (splitSlash "/app/files".toList) = rootKey := by decide
  rw [this]

/-- Resolution of a slash-stripped path with no dot-dot segment stays under
the Storage Root. -/
theorem underRoot_of_no_dotdot (p : String)
    (h : ∀ s ∈ splitSlash (stripSlashes p).toList, s ≠ "..") :
    underRoot (os_path_join UPLOAD_FOLDER (stripSlashes p)) := by
  rw [os_path_join_root _ (startsWithSlash_stripSlashes p)]
  unfold underRoot
  rw [pathKey_root_append]
  obtain ⟨rest, hr⟩ := foldl_normStep_extend _ rootKey h
  rw [hr]
  exact List.take_left rootKey rest

/-- A clean segment has no slash, so splitting it yields just itself. -/
theorem splitSlash_of_no_slash :
    ∀ l : List Char, l.contains '/' = false → splitSlash l = [String.mk l] := by
  intro l
  induction l with
  | nil => intro h; rfl
  | cons c cs ih =>
    intro h
    have hc : ¬ c = '/' := by
      intro hc; subst hc; simp [List.contains] at h
    have hcs : cs.contains '/' = false := by
      cases hx : cs.contains '/'
      · rfl
      · exfalso
        have : cs.elem '/' = true := hx
        simp [List.contains, List.elem_cons] at h
        simp [List.elem_iff] at this
        exact h.2 this
    unfold splitSlash
    rw [if_neg hc, ih hcs]
    rfl

/-- A clean segment does not start with a slash. -/
theorem cleanSeg_not_slash_start (n : String) (h : cleanSeg n = true) :
    startsWithSlash n = false := by
  unfold cleanSeg at h
  simp only [Bool.and_eq_true] at h
  unfold startsWithSlash
  simp only [decide_eq_false_iff_not]
  intro hh
  cases hl : n.toList with
  | nil => rw [hl] at hh; simp at hh
  | cons c cs =>
    rw [hl] at hh
    simp at hh
    have : n.toList.contains '/' = true := by
      rw [hl, hh]
      simp [List.contains]
    rw [this] at h
    simp at h

/-- Appending one clean segment to any path extends its normalized key by
exactly that segment. -/
theorem pathKey_join_clean (a n : String) (h : cleanSeg n = true) :
    pathKey (os_path_join a n) = pathKey a ++ [n] := by
  have hns : startsWithSlash n = false := cleanSeg_not_slash_start n h
  have hsplit : splitSlash n.toList = [n] := by
    have hcontains : n.toList.contains '/' = false := by
      unfold cleanSeg at h
      simp only [Bool.and_eq_true] at h
      have := h.1.1.1
      simpa using this
    rw [splitSlash_of_no_slash n.toList hcontains, mk_toList]
  have hstep : ∀ acc, normStep acc n = acc ++ [n] := by
    intro acc
    unfold cleanSeg at h
    simp only [Bool.and_eq_true] at h
    have h1 : ¬ (n = "") := by
      intro hx
      have := h.1.1.2
      rw [hx] at this
      simp at this
    have h2 : ¬ (n = ".") := by
      intro hx
      have := h.1.2
      rw [hx] at this
      simp at this
    have h3 : ¬ (n = "..") := by
      intro hx
      have := h.2
      rw [hx] at this
      simp at this
    simp [normStep, h1, h2, h3]
  unfold os_path_join
  rw [if_neg (by simp [hns])]
  by_cases hA : a = "" ∨ endsWithSlash a = true
  · rw [if_pos (by simpa using hA)]
    rcases hA with hA | hA
    · subst hA
      unfold pathKey
      have hto : ("" ++ n).toList = n.toList := by
        show ("" ++ n).data = n.data
        rw [String.data_append]
        rfl
      rw [hto, hsplit]
      simp only [List.foldl_cons, List.foldl_nil]
      rw [hstep]
      have hz : List.foldl normStep [] (splitSlash "".toList) = [] := by decide
      rw [hz]
    · unfold endsWithSlash at hA
      simp only [decide_eq_true_eq] at hA
      have hne : a.toList ≠ [] := by
        intro hx; rw [hx] at hA; simp at hA
      have hdec : a.toList = a.toList.dropLast ++ ['/'] := by
        conv_lhs => rw [← List.dropLast_append_getLast hne]
        have : a.toList.getLast hne = '/' := by
          have := List.getLast?_eq_getLast a.toList hne
          rw [hA] at this
          exact (Option.some_injective _ this.symm)
        rw [this]
      unfold pathKey
      have hja : (a ++ n).toList = a.toList.dropLast ++ '/' :: n.toList := by
        show (a ++ n).data = a.toList.dropLast ++ '/' :: n.data
        rw [String.data_append]
        conv_lhs => rw [show a.data = a.toList.dropLast ++ ['/'] from hdec]
        simp
      rw [hja, splitSlash_append, List.foldl_append, hsplit]
      simp only [List.foldl_cons, List.foldl_nil]
      rw [hstep]
      conv_rhs => rw [hdec, splitSlash_append]
      rw [List.foldl_append]
      have hz : ∀ A : List String, List.foldl normStep A (splitSlash ([] : List Char)) = A := by
        intro A
        show List.foldl normStep A [""] = A
        simp [normStep]
      rw [hz]
  · rw [if_neg (by simpa using hA)]
    unfold pathKey
    have hja : (a ++ "/" ++ n).toList = a.toList ++ '/' :: n.toList := by
      show (a ++ "/" ++ n).data = a.data ++ '/' :: n.data
      rw [String.data_append, String.data_append]
      simp
    rw [hja, splitSlash_append, List.foldl_append, hsplit]
    simp [hstep]

/-! ### Helper lemmas about the filesystem model -/

/-- A write is found at its own key. -/
theorem find_write_self (fs : FS) (k : List String) (c : List Nat) (t : Nat) :
    (fs.write k c t).find k = some (Entry.file c t) := by
  simp [FS.write, FS.find, lookupKey]

/-- Erasing one key from an entry list does not affect lookup of another. -/
theorem lookupKey_filter_ne (k k2 : List String) (h : k2 ≠ k) :
    ∀ l : List (List String × Entry),
      lookupKey (l.filter (fun kv => !(kv.1 = k : Bool))) k2 = lookupKey l k2 := by
  intro l
  induction l with
  | nil => rfl
  | cons kv rest ih =>
    by_cases hk : kv.1 = k
    · rw [List.filter_cons_of_neg (by simp [hk]), ih]
      have hne : ¬ (kv.1 = k2) := by
        rw [hk]
        exact fun hx => h hx.symm
      simp [lookupKey, hne]
    · rw [List.filter_cons_of_pos (by simp [hk])]
      simp only [lookupKey]
      by_cases hx : kv.1 = k2
      · rw [if_pos hx, if_pos hx]
      · rw [if_neg hx, if_neg hx, ih]

/-- A write leaves every other key unchanged. -/
theorem find_write_ne (fs : FS) (k k2 : List String) (c : List Nat) (t : Nat)
    (h : k2 ≠ k) : (fs.write k c t).find k2 = fs.find k2 := by
  unfold FS.write FS.find
  simp only [lookupKey]
  rw [if_neg (fun hx => h hx.symm)]
  exact lookupKey_filter_ne k k2 h fs.entries

/-- Effect of one mkdir step: the target becomes (or stays) a directory and
every other key keeps its entry. -/
theorem mkdirOne_spec (fs : FS) (q : List String) (now : Nat) (fs2 : FS)
    (h : fs.mkdirOne q now = some fs2) :
    (∃ t, fs2.find q = some (Entry.dir t)) ∧
      ∀ k, k ≠ q → fs2.find k = fs.find k := by
  unfold FS.mkdirOne at h
  cases hf : fs.find q with
  | none =>
    rw [hf] at h
    have hfs2 : fs2 = ⟨(q, Entry.dir now) :: fs.entries⟩ := by
      cases h; rfl
    subst hfs2
    constructor
    · exact ⟨now, by simp [FS.find, lookupKey]⟩
    · intro k hk
      show lookupKey ((q, Entry.dir now) :: fs.entries) k = lookupKey fs.entries k
      simp only [lookupKey]
      rw [if_neg (fun hx => hk hx.symm)]
  | some e =>
    rw [hf] at h
    cases e with
    | dir t =>
      have hfs2 : fs2 = fs := by cases h; rfl
      subst hfs2
      exact ⟨⟨t, hf⟩, fun k _ => rfl⟩
    | file c t => cases h

/-- A mkdir step on a key that is already a directory does nothing. -/
theorem mkdirOne_noop (fs : FS) (q : List String) (now t : Nat)
    (h : fs.find q = some (Entry.dir t)) : fs.mkdirOne q now = some fs := by
  unfold FS.mkdirOne
  rw [h]

/-- Walking mkdir along a segment list: every traversed prefix ends up a
directory, and every key off the traversed chain keeps its entry. -/
theorem mkdirAlong_spec (now : Nat) :
    ∀ (rest : List String) (pre : List String) (fs fs2 : FS),
      FS.mkdirAlong fs pre rest now = some fs2 →
      (∀ k, (∀ n, 0 < n → n ≤ rest.length → k ≠ pre ++ rest.take n) →
        fs2.find k = fs.find k) ∧
      (∀ n, 0 < n → n ≤ rest.length →
        ∃ t, fs2.find (pre ++ rest.take n) = some (Entry.dir t)) := by
  intro rest
  induction rest with
  | nil =>
    intro pre fs fs2 h
    have : fs2 = fs := by
      unfold FS.mkdirAlong at h
      cases h; rfl
    subst this
    exact ⟨fun k _ => rfl, fun n hn hn2 => absurd (Nat.lt_of_lt_of_le hn hn2)
      (by simp)⟩
  | cons s rest2 ih =>
    intro pre fs fs2 h
    unfold FS.mkdirAlong at h
    cases hone : fs.mkdirOne (pre ++ [s]) now with
    | none => rw [hone] at h; cases h
    | some fsA =>
      rw [hone] at h
      obtain ⟨hA_dir, hA_ne⟩ := mkdirOne_spec fs (pre ++ [s]) now fsA hone
      obtain ⟨hrec_ne, hrec_dir⟩ := ih (pre ++ [s]) fsA fs2 h
      constructor
      · intro k hk
        have hk1 : k ≠ pre ++ [s] := by
          have := hk 1 (by omega) (by simp)
          simpa using this
        have hkr : ∀ n, 0 < n → n ≤ rest2.length → k ≠ (pre ++ [s]) ++ rest2.take n := by
          intro n hn hn2
          have := hk (n + 1) (by omega) (by simp only [List.length_cons]; omega)
          simpa [List.append_assoc] using this
        rw [hrec_ne k hkr, hA_ne k hk1]
      · intro n hn hn2
        cases n with
        | zero => omega
        | succ m =>
          cases m with
          | zero =>
            obtain ⟨t, ht⟩ := hA_dir
            refine ⟨t, ?_⟩
            have hgoal : pre ++ List.take (0 + 1) (s :: rest2) = pre ++ [s] := by simp
            rw [hgoal]
            have hlen : ∀ j, 0 < j → j ≤ rest2.length →
                (pre ++ [s] : List String) ≠ (pre ++ [s]) ++ rest2.take j := by
              intro j hj hj2 hx
              have h1 := congrArg List.length hx
              simp only [List.length_append, List.length_take] at h1
              rw [Nat.min_eq_left hj2] at h1
              omega
            rw [hrec_ne (pre ++ [s]) hlen]
            exact ht
          | succ m2 =>
            have := hrec_dir (m2 + 1) (by omega)
              (by simp only [List.length_cons] at hn2; omega)
            simpa [List.append_assoc] using this

/-- Walking mkdir along a chain whose prefixes already exist as directories
does nothing. -/
theorem mkdirAlong_noop (now : Nat) :
    ∀ (rest : List String) (pre : List String) (fs : FS),
      (∀ n, 0 < n → n ≤ rest.length →
        ∃ t, fs.find (pre ++ rest.take n) = some (Entry.dir t)) →
      FS.mkdirAlong fs pre rest now = some fs := by
  intro rest
  induction rest with
  | nil => intro pre fs _; rfl
  | cons s rest2 ih =>
    intro pre fs h
    obtain ⟨t, ht⟩ := h 1 (by omega) (by simp)
    have ht2 : fs.find (pre ++ [s]) = some (Entry.dir t) := by simpa using ht
    unfold FS.mkdirAlong
    rw [mkdirOne_noop fs (pre ++ [s]) now t ht2]
    apply ih
    intro n hn hn2
    have := h (n + 1) (by omega) (by simp; omega)
    simpa [List.append_assoc] using this

/-- Walking mkdir along a chain blocked by no regular file succeeds. -/
theorem mkdirAlong_ok (now : Nat) :
    ∀ (rest : List String) (pre : List String) (fs : FS),
      (∀ n, 0 < n → n ≤ rest.length → ∀ c t,
        fs.find (pre ++ rest.take n) ≠ some (Entry.file c t)) →
      ∃ fs2, FS.mkdirAlong fs pre rest now = some fs2 := by
  intro rest
  induction rest with
  | nil => intro pre fs _; exact ⟨fs, rfl⟩
  | cons s rest2 ih =>
    intro pre fs h
    have h1 : ∀ c t, fs.find (pre ++ [s]) ≠ some (Entry.file c t) := by
      intro c t
      have := h 1 (by omega) (by simp) c t
      simpa using this
    have hone : ∃ fsA, fs.mkdirOne (pre ++ [s]) now = some fsA := by
      unfold FS.mkdirOne
      cases hf : fs.find (pre ++ [s]) with
      | none => exact ⟨_, rfl⟩
      | some e =>
        cases e with
        | dir t => exact ⟨fs, rfl⟩
        | file c t => exact absurd hf (h1 c t)
    obtain ⟨fsA, hfsA⟩ := hone
    obtain ⟨_, hA_ne⟩ := mkdirOne_spec fs (pre ++ [s]) now fsA hfsA
    have hrest : ∀ n, 0 < n → n ≤ rest2.length → ∀ c t,
        fsA.find ((pre ++ [s]) ++ rest2.take n) ≠ some (Entry.file c t) := by
      intro n hn hn2 c t
      have hne : (pre ++ [s]) ++ rest2.take n ≠ pre ++ [s] := by
        intro hx
        have h1 := congrArg List.length hx
        simp only [List.length_append, List.length_take] at h1
        rw [Nat.min_eq_left hn2] at h1
        omega
      rw [hA_ne _ hne]
      have := h (n + 1) (by omega) (by simp only [List.length_cons]; omega) c t
      simpa [List.append_assoc] using this
    obtain ⟨fs2, hfs2⟩ := ih (pre ++ [s]) fsA hrest
    exact ⟨fs2, by unfold FS.mkdirAlong; rw [hfsA]; exact hfs2⟩

/-! ### Helper lemmas about splitext and filenames -/

/-- dropWhile stopping at the first occurrence of a present character. -/
theorem dropWhile_ne_eq_cons (c : Char) :
    ∀ l : List Char, c ∈ l → ∃ t, l.dropWhile (fun x => x ≠ c) = c :: t := by
  intro l
  induction l with
  | nil => intro h; simp at h
  | cons a t ih =>
    intro h
    by_cases ha : a = c
    · subst ha
      exact ⟨t, by simp [List.dropWhile]⟩
    · have hc : c ∈ t := by
        rcases List.mem_cons.mp h with h1 | h1
        · exact absurd h1.symm ha
        · exact h1
      obtain ⟨t2, ht2⟩ := ih hc
      refine ⟨t2, ?_⟩
      rw [List.dropWhile_cons, if_pos (by simp [ha])]
      exact ht2

/-- The directory part and the basename part recombine to the whole path. -/
theorem dirPart_append_base (l : List Char) : dirPartIncl l ++ baseNamePart l = l := by
  unfold dirPartIncl baseNamePart
  rw [← List.reverse_append, List.takeWhile_append_dropWhile, List.reverse_reverse]

/-- Splitting at the last dot of a list that contains one recombines to the
whole list. -/
theorem beforeLast_dot_append (b : List Char) (h : b.contains '.' = true) :
    beforeLast b '.' ++ '.' :: afterLast b '.' = b := by
  unfold beforeLast afterLast
  have hmem : ('.' : Char) ∈ b.reverse := by
    rw [List.mem_reverse]
    simpa using h
  obtain ⟨t2, ht2⟩ := dropWhile_ne_eq_cons '.' b.reverse hmem
  rw [ht2]
  conv_rhs => rw [← List.reverse_reverse b,
    ← List.takeWhile_append_dropWhile (fun x => decide (x ≠ '.')) b.reverse]
  rw [List.reverse_append, ht2]
  simp

/-- splitext decomposes its argument: name and extension recombine. -/
theorem splitextChars_append (l : List Char) :
    (splitextChars l).1 ++ (splitextChars l).2 = l := by
  unfold splitextChars
  split
  · rename_i h
    simp only [Bool.and_eq_true] at h
    rw [List.append_assoc, beforeLast_dot_append (baseNamePart l) h.1,
      dirPart_append_base]
  · simp

/-- Name and extension of os.path.splitext recombine to the filename. -/
theorem os_path_splitext_append (s : String) :
    (os_path_splitext s).1 ++ (os_path_splitext s).2 = s := by
  unfold os_path_splitext
  show String.mk ((splitextChars s.toList).1) ++
      String.mk ((splitextChars s.toList).2) = s
  have hmk : ∀ x y : List Char, String.mk x ++ String.mk y = String.mk (x ++ y) :=
    fun x y => rfl
  rw [hmk, splitextChars_append, mk_toList]

/-- The size reported for a freshly written file is its content length. -/
theorem getsize_write_self (fs : FS) (k : List String) (c : List Nat) (t : Nat) :
    (fs.write k c t).getsize k = c.length := by
  simp [FS.getsize, find_write_self]

/-! ### Helper lemmas about lower-casing -/

/-- Char.ofNat inverts toNat on valid code points. -/
theorem toNat_ofNat_valid (n : Nat) (h : n.isValidChar) :
    (Char.ofNat n).toNat = n := by
  rw [Char.ofNat, dif_pos h]
  rfl

/-- Lower-casing maps a character to the dot only if it was the dot. -/
theorem lowerChar_eq_dot_iff (c : Char) : lowerChar c = '.' ↔ c = '.' := by
  unfold lowerChar
  split
  · rename_i h
    obtain ⟨h1, h2⟩ := h
    constructor
    · intro hx
      exfalso
      have hv : (c.toNat + 32).isValidChar := Or.inl (by omega)
      have he := congrArg Char.toNat hx
      rw [toNat_ofNat_valid _ hv] at he
      have hdot : ('.' : Char).toNat = 46 := by decide
      rw [hdot] at he
      omega
    · intro hx
      exfalso
      subst hx
      have hdot : ('.' : Char).toNat = 46 := by decide
      rw [hdot] at h1
      omega
  · exact Iff.rfl

/-- Lower-casing is idempotent on characters. -/
theorem lowerChar_idem (c : Char) : lowerChar (lowerChar c) = lowerChar c := by
  by_cases h : 65 ≤ c.toNat ∧ c.toNat ≤ 90
  · have h1 : lowerChar c = Char.ofNat (c.toNat + 32) := by
      unfold lowerChar
      rw [if_pos h]
    have hv : (c.toNat + 32).isValidChar := Or.inl (by omega)
    rw [h1]
    unfold lowerChar
    rw [if_neg (by rw [toNat_ofNat_valid _ hv]; omega)]
  · have h1 : lowerChar c = c := by
      unfold lowerChar
      rw [if_neg h]
    rw [h1, h1]

/-- Lower-casing a character list does not change whether it has a dot. -/
theorem contains_dot_map_lower (l : List Char) :
    (l.map lowerChar).contains '.' = l.contains '.' := by
  rw [Bool.eq_iff_iff]
  constructor
  · intro hx
    have hm : '.' ∈ l.map lowerChar := by simpa using hx
    obtain ⟨x, hxl, hlx⟩ := List.mem_map.mp hm
    have hxd := (lowerChar_eq_dot_iff x).mp hlx
    subst hxd
    simpa using hxl
  · intro hx
    have hm : '.' ∈ l := by simpa using hx
    have hmm : '.' ∈ l.map lowerChar := List.mem_map.mpr ⟨'.', hm, by decide⟩
    simpa using hmm

/-- Lower-casing commutes with taking the text after the last dot. -/
theorem afterLast_map_lower (l : List Char) :
    afterLast (l.map lowerChar) '.' = (afterLast l '.').map lowerChar := by
  unfold afterLast
  rw [← List.map_reverse, List.takeWhile_map, ← List.map_reverse]
  have hp : ((fun x : Char => decide (x ≠ '.')) ∘ lowerChar) =
      (fun x : Char => decide (x ≠ '.')) := by
    funext x
    show (decide (lowerChar x ≠ '.') : Bool) = decide (x ≠ '.')
    exact decide_eq_decide.mpr (not_congr (lowerChar_eq_dot_iff x))
  rw [hp]

/-- Lower-casing a string twice equals lower-casing it once. -/
theorem lowerStr_map_lower (x : List Char) :
    lowerStr (String.mk (x.map lowerChar)) = lowerStr (String.mk x) := by
  unfold lowerStr
  rw [show (String.mk (x.map lowerChar)).toList = x.map lowerChar from rfl,
    show (String.mk x).toList = x from rfl, List.map_map]
  have hf : (lowerChar ∘ lowerChar) = lowerChar := by
    funext c
    exact lowerChar_idem c
  rw [hf]

/-- The extension test is case-insensitive: lower-casing the filename first
does not change the verdict. -/
theorem allowed_file_lower (f : String) :
    allowed_file (lowerStr f) = allowed_file f := by
  unfold allowed_file
  rw [show (lowerStr f).toList = f.toList.map lowerChar from rfl,
    contains_dot_map_lower, afterLast_map_lower, lowerStr_map_lower]

/-! ### Claim theorems -/

/-- C2: every retrieval request whose path contains the substring dot-dot or
begins with a slash is answered with the INVALID_PATH error (HTTP 400); the
conclusion holds uniformly in the filesystem argument, so the rejection is
decided before (and independently of) any filesystem access. -/
theorem c2_retrieval_rejects_traversal (filename : String) (fs : FS)
    (h : strHasSub filename ".." = true ∨ startsWithSlash filename = true) :
    download_file filename fs = DownloadResp.invalidPath ∧
      DownloadResp.invalidPath.code = "INVALID_PATH" ∧
      DownloadResp.invalidPath.status = 400 := by
  refine ⟨?_, rfl, rfl⟩
  unfold download_file
  rcases h with h | h
  · rw [if_pos (by simp [h])]
  · rw [if_pos (by simp [h])]

/-- C2 witness at a concrete traversal path. -/
theorem c2_retrieval_rejects_traversal_witness :
    download_file "../etc/passwd" initFS = DownloadResp.invalidPath ∧
      DownloadResp.invalidPath.code = "INVALID_PATH" ∧
      DownloadResp.invalidPath.status = 400 :=
  c2_retrieval_rejects_traversal "../etc/passwd" initFS (Or.inl (by decide))

/-- C4: an upload whose filename has no dot or whose lower-cased extension is
outside the allowed set is rejected with INVALID_FILE_TYPE (HTTP 400) leaving
the filesystem unchanged, and any filename whose lower-cased text after the
last dot is in the set passes the check. -/
theorem c4_extension_policy :
    (∀ (req : UploadReq) (fs : FS) (now : Clock), req.hasFile = true →
      req.origName ≠ "" → allowed_file req.origName = false →
      upload_file req fs now = (UploadResp.invalidFileType, fs)) ∧
    (∀ f : String, f.toList.contains '.' = false → allowed_file f = false) ∧
    (∀ f : String,
      ALLOWED_EXTENSIONS.contains
        (lowerStr (String.mk (afterLast f.toList '.'))) = false →
      allowed_file f = false) ∧
    (∀ f : String, f.toList.contains '.' = true →
      ALLOWED_EXTENSIONS.contains
        (lowerStr (String.mk (afterLast f.toList '.'))) = true →
      allowed_file f = true) ∧
    UploadResp.invalidFileType.code = "INVALID_FILE_TYPE" ∧
    UploadResp.invalidFileType.status = 400 := by
  refine ⟨?_, ?_, ?_, ?_, rfl, rfl⟩
  · intro req fs now h1 h2 h3
    unfold upload_file
    rw [if_neg (by simp [h1]), if_neg h2, if_pos (by simp [h3])]
  · intro f h
    unfold allowed_file
    rw [h, Bool.false_and]
  · intro f h
    unfold allowed_file
    rw [h, Bool.and_false]
  · intro f h1 h2
    unfold allowed_file
    rw [h1, h2]
    rfl

/-- C4 witness: a disallowed extension is rejected with the state unchanged,
and a pdf name passes the check. -/
theorem c4_extension_policy_witness :
    upload_file ⟨true, "virus.exe", [1, 2], "", ""⟩ initFS ⟨"t", "i", 0⟩ =
      (UploadResp.invalidFileType, initFS) ∧ allowed_file "x.pdf" = true :=
  ⟨c4_extension_policy.1 ⟨true, "virus.exe", [1, 2], "", ""⟩ initFS ⟨"t", "i", 0⟩
    rfl (by decide) (by decide),
   c4_extension_policy.2.2.2.1 "x.pdf" (by decide) (by decide)⟩

/-- C9: when the listing path exists as a regular file, the existence check
passes, the directory enumeration raises, and the handler answers LIST_ERROR
(HTTP 500) rather than PATH_NOT_FOUND. -/
theorem c9_list_on_file_gives_list_error (fs : FS) (p : String) (c : List Nat)
    (t : Nat)
    (h : fs.find (pathKey (os_path_join UPLOAD_FOLDER (stripSlashes p))) =
      some (Entry.file c t)) :
    list_files p fs = (ListResp.listError, fs) ∧
      (list_files p fs).1 ≠ ListResp.pathNotFound ∧
      ListResp.listError.status = 500 := by
  have hmain : list_files p fs = (ListResp.listError, fs) := by
    simp only [list_files, FS.listdir, FS.pathExists]
    rw [h]
    simp
  refine ⟨hmain, ?_, rfl⟩
  rw [hmain]
  simp

/-- C9 witness: listing a stored file path yields LIST_ERROR. -/
theorem c9_list_on_file_gives_list_error_witness :
    list_files "f.txt"
        ⟨[(["app", "files", "f.txt"], Entry.file [1, 2] 3),
          (["app", "files"], Entry.dir 0), (["app"], Entry.dir 0),
          ([], Entry.dir 0)]⟩ =
      (ListResp.listError,
        ⟨[(["app", "files", "f.txt"], Entry.file [1, 2] 3),
          (["app", "files"], Entry.dir 0), (["app"], Entry.dir 0),
          ([], Entry.dir 0)]⟩) :=
  (c9_list_on_file_gives_list_error _ "f.txt" [1, 2] 3 (by decide)).1

/-- C1 counterexample: the folder-creation endpoint accepts the relative
path consisting of one dot-dot segment and succeeds while acting on
/app/files/.. , whose normalized form /app is not a descendant of (or equal
to) the Storage Root, refuting the invariant as stated. -/
theorem c1_counterexample :
    create_folder (some "..") initFS ⟨"t", "i", 0⟩ =
      (FolderResp.ok ".." "/app/files/.." "i", initFS) ∧
    ¬ underRoot "/app/files/.." := by
  exact ⟨by decide, by decide⟩

/-- C1 (amended): the invariant holds for every relative path none of whose
slash-separated segments (after stripping leading and trailing slashes) is
dot-dot: the resolved path os_path_join of the Storage Root and the stripped
path — the expression shared by create_directory (used by the upload and
folder-creation endpoints) and by the listing handler — is a descendant of or
equal to the Storage Root; and create_directory indeed resolves exactly that
path. -/
theorem c1_amended_resolution_under_root :
    (∀ p : String, (∀ s ∈ splitSlash (stripSlashes p).toList, s ≠ "..") →
      underRoot (os_path_join UPLOAD_FOLDER (stripSlashes p))) ∧
    (∀ (fs : FS) (p : String) (now : Nat) (r : String × FS),
      create_directory fs p now = some r →
      r.1 = os_path_join UPLOAD_FOLDER (stripSlashes p)) := by
  constructor
  · exact underRoot_of_no_dotdot
  · intro fs p now r h
    simp only [create_directory] at h
    cases hm : FS.mkdirAll fs
        (pathKey (os_path_join UPLOAD_FOLDER (stripSlashes p))) now with
    | none => rw [hm] at h; cases h
    | some fs2 => rw [hm] at h; cases h; rfl

/-- C1 (amended) witness at a concrete dot-dot-free path. -/
theorem c1_amended_resolution_under_root_witness :
    underRoot (os_path_join UPLOAD_FOLDER (stripSlashes "user/docs/2025")) :=
  c1_amended_resolution_under_root.1 "user/docs/2025" (by decide)

/-- C5 counterexample: the custom filename consisting of two dots sanitizes
to the empty string, yet the upload succeeds and stores the extension-only
name .pdf instead of failing with the EmptyFilename error. -/
theorem c5_counterexample :
    secure_filename ".." = "" ∧
    upload_file ⟨true, "x.pdf", [9], "", ".."⟩ initFS ⟨"t", "i", 7⟩ =
      (UploadResp.ok ".pdf" ".pdf" "http://localhost:5000/files/.pdf" 1 "i",
        ⟨[(["app", "files", ".pdf"], Entry.file [9] 7),
          (["app", "files"], Entry.dir 0), (["app"], Entry.dir 0),
          ([], Entry.dir 0)]⟩) ∧
    (upload_file ⟨true, "x.pdf", [9], "", ".."⟩ initFS ⟨"t", "i", 7⟩).1 ≠
      UploadResp.emptyFilename := by
  exact ⟨by decide, by decide, by decide⟩

/-- C5 (amended): the EMPTY_FILENAME error is produced exactly when the raw
submitted filename is empty — the check runs before sanitization and leaves
the filesystem unchanged; an upload whose sanitization yields an empty name
is not rejected by it. -/
theorem c5_amended_empty_check_is_presanitization
    (req : UploadReq) (fs : FS) (now : Clock) (h : req.hasFile = true) :
    ((upload_file req fs now).1 = UploadResp.emptyFilename ↔
      req.origName = "") ∧
    (req.origName = "" → upload_file req fs now = (UploadResp.emptyFilename, fs)) ∧
    UploadResp.emptyFilename.code = "EMPTY_FILENAME" ∧
    UploadResp.emptyFilename.status = 400 := by
  refine ⟨⟨?_, ?_⟩, ?_, rfl, rfl⟩
  · intro hr
    by_contra hne
    simp only [upload_file] at hr
    rw [if_neg (by simp [h]), if_neg hne] at hr
    by_cases hal : allowed_file req.origName
    · rw [if_neg (by simp [hal])] at hr
      cases hm : (if stripSlashes req.formPath ≠ "" then
          create_directory fs (stripSlashes req.formPath) now.epoch
        else some (UPLOAD_FOLDER, fs)) with
      | none => rw [hm] at hr; simp at hr
      | some pr =>
        rw [hm] at hr
        cases pr with
        | mk d fs1 => simp at hr
    · rw [if_pos (by simp [hal])] at hr
      simp at hr
  · intro hO
    unfold upload_file
    rw [if_neg (by simp [h]), if_pos hO]
  · intro hO
    unfold upload_file
    rw [if_neg (by simp [h]), if_pos hO]

/-- C5 (amended) witness: the truly empty raw filename is the rejected case. -/
theorem c5_amended_empty_check_witness :
    ((upload_file ⟨true, "", [], "", ""⟩ initFS ⟨"t", "i", 0⟩).1 =
        UploadResp.emptyFilename ↔ ("" : String) = "") ∧
    (("" : String) = "" →
      upload_file ⟨true, "", [], "", ""⟩ initFS ⟨"t", "i", 0⟩ =
        (UploadResp.emptyFilename, initFS)) ∧
    UploadResp.emptyFilename.code = "EMPTY_FILENAME" ∧
    UploadResp.emptyFilename.status = 400 :=
  c5_amended_empty_check_is_presanitization ⟨true, "", [], "", ""⟩ initFS
    ⟨"t", "i", 0⟩ rfl

/-- C6: with a non-empty custom filename the stored name is the sanitized
custom name followed by a dot and the lower-cased original extension;
concretely, custom name report with uploaded x.pdf stores report.pdf, which
is neither report.x.pdf nor report. -/
theorem c6_custom_filename_composition :
    (∀ origName custom_filename : String, custom_filename ≠ "" →
      uploadFilename origName custom_filename =
        secure_filename custom_filename ++ "." ++
          lowerStr (String.mk (afterLast origName.toList '.'))) ∧
    (upload_file ⟨true, "x.pdf", [1], "", "report"⟩ initFS ⟨"t", "i", 3⟩).1 =
      UploadResp.ok "report.pdf" "report.pdf"
        "http://localhost:5000/files/report.pdf" 1 "i" ∧
    ("report.pdf" : String) ≠ "report.x.pdf" ∧
    ("report.pdf" : String) ≠ "report" := by
  refine ⟨?_, by decide, by decide, by decide⟩
  intro o c h
  unfold uploadFilename
  rw [if_pos h]

/-- C6 witness at the concrete custom name and original filename. -/
theorem c6_custom_filename_composition_witness :
    uploadFilename "x.pdf" "report" =
      secure_filename "report" ++ "." ++
        lowerStr (String.mk (afterLast "x.pdf".toList '.')) :=
  c6_custom_filename_composition.1 "x.pdf" "report" (by decide)

/-- C10: the extension check is case-insensitive — lower-casing the filename
never changes the verdict, and X.PDF is accepted — while storage preserves
case: X.PDF with no custom name is stored as X.PDF, and the same file with
custom name r is stored as r.pdf. -/
theorem c10_case_insensitive_check_case_preserving_storage :
    (∀ f : String, allowed_file (lowerStr f) = allowed_file f) ∧
    allowed_file "X.PDF" = true ∧
    (upload_file ⟨true, "X.PDF", [1], "", ""⟩ initFS ⟨"t", "i", 3⟩).1 =
      UploadResp.ok "X.PDF" "X.PDF" "http://localhost:5000/files/X.PDF" 1 "i" ∧
    (upload_file ⟨true, "X.PDF", [1], "", "r"⟩ initFS ⟨"t", "i", 3⟩).1 =
      UploadResp.ok "r.pdf" "r.pdf" "http://localhost:5000/files/r.pdf" 1 "i" :=
  ⟨allowed_file_lower, by decide, by decide, by decide⟩

/-- Any path joined onto the Storage Root is absolute. -/
theorem startsWithSlash_join_root (b : String) :
    startsWithSlash (os_path_join UPLOAD_FOLDER b) = true := by
  unfold os_path_join
  by_cases hb : startsWithSlash b = true
  · rw [if_pos (by simp [hb])]
    exact hb
  · rw [if_neg (by simp [hb]), if_neg (by decide)]
    unfold startsWithSlash
    rw [show (UPLOAD_FOLDER ++ "/" ++ b).toList =
      (UPLOAD_FOLDER ++ "/").toList ++ b.toList from String.data_append _ _]
    rw [List.head?_append]
    rw [show (UPLOAD_FOLDER ++ "/").toList.head? = some '/' from by decide]
    simp

/-- Walking mkdir along a chain on which a regular file sits raises. -/
theorem mkdirAlong_blocked (now : Nat) :
    ∀ (rest : List String) (pre : List String) (fs : FS),
      (∃ n, 0 < n ∧ n ≤ rest.length ∧ ∃ c t,
        fs.find (pre ++ rest.take n) = some (Entry.file c t)) →
      FS.mkdirAlong fs pre rest now = none := by
  intro rest
  induction rest with
  | nil =>
    intro pre fs h
    obtain ⟨n, hn, hn2, _⟩ := h
    exact absurd (Nat.lt_of_lt_of_le hn hn2) (by simp)
  | cons s rest2 ih =>
    intro pre fs h
    obtain ⟨n, hn, hn2, c, t, hf⟩ := h
    unfold FS.mkdirAlong
    cases hone : fs.mkdirOne (pre ++ [s]) now with
    | none => rfl
    | some fsA =>
      obtain ⟨hA_dir, hA_ne⟩ := mkdirOne_spec fs (pre ++ [s]) now fsA hone
      cases n with
      | zero => omega
      | succ m =>
        cases m with
        | zero =>
          exfalso
          obtain ⟨t2, ht2⟩ := hA_dir
          have hf2 : fs.find (pre ++ [s]) = some (Entry.file c t) := by
            simpa using hf
          unfold FS.mkdirOne at hone
          rw [hf2] at hone
          cases hone
        | succ m2 =>
          apply ih (pre ++ [s]) fsA
          refine ⟨m2 + 1, by omega, by simp only [List.length_cons] at hn2; omega,
            c, t, ?_⟩
          have hne : (pre ++ [s]) ++ rest2.take (m2 + 1) ≠ pre ++ [s] := by
            intro hx
            have hlx := congrArg List.length hx
            simp only [List.length_append, List.length_take] at hlx
            rw [Nat.min_eq_left (by simp only [List.length_cons] at hn2; omega)]
              at hlx
            omega
          rw [hA_ne _ hne]
          simpa [List.append_assoc] using hf

/-- C7 counterexample: with /app/files/ghost.txt an existing regular file,
the folder-creation endpoint on the relative path ghost.txt/sub does not
create the directory and does not return its path — os.makedirs raises on
the blocking file and the handler answers CREATE_FOLDER_ERROR (HTTP 500) —
so the claim does not hold of every relative-path string. -/
theorem c7_counterexample :
    create_folder (some "ghost.txt/sub")
        ⟨[(["app", "files", "ghost.txt"], Entry.file [1] 0),
          (["app", "files"], Entry.dir 0), (["app"], Entry.dir 0),
          ([], Entry.dir 0)]⟩ ⟨"t", "i", 3⟩ =
      (FolderResp.createFolderError,
        ⟨[(["app", "files", "ghost.txt"], Entry.file [1] 0),
          (["app", "files"], Entry.dir 0), (["app"], Entry.dir 0),
          ([], Entry.dir 0)]⟩) ∧
    (⟨[(["app", "files", "ghost.txt"], Entry.file [1] 0),
        (["app", "files"], Entry.dir 0), (["app"], Entry.dir 0),
        ([], Entry.dir 0)]⟩ : FS).find
      (pathKey (os_path_join UPLOAD_FOLDER (stripSlashes "ghost.txt/sub"))) =
      none ∧
    FolderResp.createFolderError.status = 500 := by
  exact ⟨by decide, by decide, rfl⟩

/-- C7 (amended): create_directory always resolves exactly the join of the
Storage Root with the slash-stripped relative path (an absolute path), and on
relative paths free of dot-dot segments — per the data model a Relative Path
denotes a subdirectory chain under the root, and on that region the lexical
chain coincides with the literal walk of os.makedirs — it creates the
directory and all missing ancestors provided no existing regular file
occupies a prefix of the chain, succeeds without change when the chain
already exists as directories, and raises (so the endpoint reports
CREATE_FOLDER_ERROR) when a regular file blocks the chain. -/
theorem c7_create_directory_contract :
    (∀ (fs : FS) (p : String) (now : Nat) (r : String × FS),
      create_directory fs p now = some r →
      r.1 = os_path_join UPLOAD_FOLDER (stripSlashes p) ∧
      startsWithSlash r.1 = true) ∧
    (∀ (fs : FS) (p : String) (now : Nat) (r : String × FS),
      (∀ s ∈ splitSlash (stripSlashes p).toList, s ≠ "..") →
      create_directory fs p now = some r →
      ∀ n, 0 < n → n ≤ (pathKey r.1).length →
        ∃ t, r.2.find ((pathKey r.1).take n) = some (Entry.dir t)) ∧
    (∀ (fs : FS) (p : String) (now : Nat),
      (∀ s ∈ splitSlash (stripSlashes p).toList, s ≠ "..") →
      (∀ n, 0 < n →
        n ≤ (pathKey (os_path_join UPLOAD_FOLDER (stripSlashes p))).length →
        ∃ t, fs.find
          ((pathKey (os_path_join UPLOAD_FOLDER (stripSlashes p))).take n) =
            some (Entry.dir t)) →
      create_directory fs p now =
        some (os_path_join UPLOAD_FOLDER (stripSlashes p), fs)) ∧
    (∀ (fs : FS) (p : String) (now : Nat),
      (∀ s ∈ splitSlash (stripSlashes p).toList, s ≠ "..") →
      (∀ n, 0 < n →
        n ≤ (pathKey (os_path_join UPLOAD_FOLDER (stripSlashes p))).length →
        ∀ c t, fs.find
          ((pathKey (os_path_join UPLOAD_FOLDER (stripSlashes p))).take n) ≠
            some (Entry.file c t)) →
      ∃ fs2, create_directory fs p now =
        some (os_path_join UPLOAD_FOLDER (stripSlashes p), fs2)) ∧
    (∀ (fs : FS) (p : String) (now : Nat),
      (∀ s ∈ splitSlash (stripSlashes p).toList, s ≠ "..") →
      (∃ n, 0 < n ∧
        n ≤ (pathKey (os_path_join UPLOAD_FOLDER (stripSlashes p))).length ∧
        ∃ c t, fs.find
          ((pathKey (os_path_join UPLOAD_FOLDER (stripSlashes p))).take n) =
            some (Entry.file c t)) →
      create_directory fs p now = none) := by
  refine ⟨?_, ?_, ?_, ?_, ?_⟩
  · intro fs p now r h
    simp only [create_directory] at h
    cases hm : FS.mkdirAll fs
        (pathKey (os_path_join UPLOAD_FOLDER (stripSlashes p))) now with
    | none => rw [hm] at h; cases h
    | some fs2 =>
      rw [hm] at h
      cases h
      exact ⟨rfl, startsWithSlash_join_root _⟩
  · intro fs p now r _ h
    simp only [create_directory] at h
    cases hm : FS.mkdirAll fs
        (pathKey (os_path_join UPLOAD_FOLDER (stripSlashes p))) now with
    | none => rw [hm] at h; cases h
    | some fs2 =>
      rw [hm] at h
      cases h
      intro n hn hn2
      have := (mkdirAlong_spec now _ [] fs fs2 hm).2 n hn hn2
      simpa using this
  · intro fs p now _ h
    simp only [create_directory]
    have hnoop : FS.mkdirAll fs
        (pathKey (os_path_join UPLOAD_FOLDER (stripSlashes p))) now = some fs := by
      apply mkdirAlong_noop
      intro n hn hn2
      simpa using h n hn hn2
    rw [hnoop]
  · intro fs p now _ h
    have hok : ∃ fs2, FS.mkdirAll fs
        (pathKey (os_path_join UPLOAD_FOLDER (stripSlashes p))) now = some fs2 := by
      apply mkdirAlong_ok
      intro n hn hn2 c t
      simpa using h n hn hn2 c t
    obtain ⟨fs2, hfs2⟩ := hok
    refine ⟨fs2, ?_⟩
    simp only [create_directory]
    rw [hfs2]
  · intro fs p now _ h
    obtain ⟨n, hn, hn2, c, t, hf⟩ := h
    have hnone : FS.mkdirAll fs
        (pathKey (os_path_join UPLOAD_FOLDER (stripSlashes p))) now = none := by
      apply mkdirAlong_blocked
      exact ⟨n, hn, hn2, c, t, by simpa using hf⟩
    simp only [create_directory]
    rw [hnone]

/-- C7 witness: resolving the empty relative path touches only the existing
root chain and returns the root path with the filesystem unchanged. -/
theorem c7_create_directory_contract_witness :
    create_directory initFS "" 5 =
      some (os_path_join UPLOAD_FOLDER (stripSlashes ""), initFS) :=
  c7_create_directory_contract.2.2.1 initFS "" 5 (by decide) (by
    intro n hn hn2
    have hl : (pathKey (os_path_join UPLOAD_FOLDER (stripSlashes ""))).length = 2 := by
      decide
    rw [hl] at hn2
    have hcase : n = 1 ∨ n = 2 := by omega
    rcases hcase with hc | hc <;> subst hc
    · exact ⟨0, by decide⟩
    · exact ⟨0, by decide⟩)

/-! ### Helper lemmas for the listing claim -/

/-- A successful lookup names an entry of the list. -/
theorem lookupKey_mem :
    ∀ (l : List (List String × Entry)) (k : List String) (e : Entry),
      lookupKey l k = some e → (k, e) ∈ l := by
  intro l
  induction l with
  | nil => intro k e h; cases h
  | cons kv rest ih =>
    intro k e h
    simp only [lookupKey] at h
    by_cases hk : kv.1 = k
    · rw [if_pos hk] at h
      cases h
      rw [← hk]
      exact List.mem_cons_self _ _
    · rw [if_neg hk] at h
      right
      exact ih k e h

/-- With duplicate-free keys, membership determines the lookup result. -/
theorem lookupKey_some_of_mem :
    ∀ (l : List (List String × Entry)) (k : List String) (e : Entry),
      (l.map Prod.fst).Nodup → (k, e) ∈ l → lookupKey l k = some e := by
  intro l
  induction l with
  | nil => intro k e _ h; cases h
  | cons kv rest ih =>
    intro k e hnd h
    rw [List.map_cons, List.nodup_cons] at hnd
    simp only [lookupKey]
    rcases List.mem_cons.mp h with h1 | h1
    · rw [if_pos (congrArg Prod.fst h1.symm)]
      rw [show e = kv.2 from congrArg Prod.snd h1]
    · have hk : kv.1 ≠ k := by
        intro hx
        apply hnd.1
        rw [hx]
        exact List.mem_map.mpr ⟨(k, e), h1, rfl⟩
      rw [if_neg hk]
      exact ih k e hnd.2 h1

/-- Characterization of a key that is one segment below a directory. -/
theorem key_concat_iff (kl p : List String) (n : String) :
    (kl ≠ [] ∧ kl.dropLast = p ∧ kl.getLast? = some n) ↔ kl = p ++ [n] := by
  constructor
  · rintro ⟨h1, h2, h3⟩
    have hg := List.getLast?_eq_getLast kl h1
    rw [h3] at hg
    have hlast : kl.getLast h1 = n := (Option.some_injective _ hg).symm
    conv_lhs => rw [← List.dropLast_append_getLast h1]
    rw [h2, hlast]
  · intro h
    subst h
    exact ⟨by simp, List.dropLast_concat, List.getLast?_concat _⟩

/-- The child-collecting function emits a name only for the matching key. -/
theorem childf_eq (p : List String) (kv : List String × Entry) (n : String)
    (h : (if kv.1 ≠ [] ∧ kv.1.dropLast = p then kv.1.getLast? else none) =
      some n) : kv.1 = p ++ [n] := by
  by_cases hc : kv.1 ≠ [] ∧ kv.1.dropLast = p
  · rw [if_pos hc] at h
    exact (key_concat_iff kv.1 p n).mp ⟨hc.1, hc.2, h⟩
  · rw [if_neg hc] at h
    cases h

/-- Membership in the child names is existence of an entry one level below. -/
theorem mem_childNames_iff (fs : FS) (p : List String) (n : String) :
    n ∈ fs.childNames p ↔ ∃ e, (p ++ [n], e) ∈ fs.entries := by
  unfold FS.childNames
  rw [List.mem_filterMap]
  constructor
  · rintro ⟨kv, hkv, hf⟩
    refine ⟨kv.2, ?_⟩
    have hk := childf_eq p kv n hf
    rw [show ((p ++ [n], kv.2) : List String × Entry) = kv from by
      rw [← hk]]
    exact hkv
  · rintro ⟨e, he⟩
    refine ⟨(p ++ [n], e), he, ?_⟩
    rw [if_pos ⟨by simp, List.dropLast_concat⟩]
    exact List.getLast?_concat _

/-- With duplicate-free keys, the child names are duplicate-free. -/
theorem childNames_nodup (p : List String) :
    ∀ l : List (List String × Entry), (l.map Prod.fst).Nodup →
      (l.filterMap (fun kv =>
        if kv.1 ≠ [] ∧ kv.1.dropLast = p then kv.1.getLast? else none)).Nodup := by
  intro l
  induction l with
  | nil => intro _; simp
  | cons kv rest ih =>
    intro h
    rw [List.map_cons, List.nodup_cons] at h
    rw [List.filterMap_cons]
    cases hf : (if kv.1 ≠ [] ∧ kv.1.dropLast = p then kv.1.getLast? else none) with
    | none => exact ih h.2
    | some n =>
      rw [List.nodup_cons]
      refine ⟨?_, ih h.2⟩
      intro hmem
      obtain ⟨kv2, hkv2, hf2⟩ := List.mem_filterMap.mp hmem
      have e1 := childf_eq p kv n hf
      have e2 := childf_eq p kv2 n hf2
      apply h.1
      rw [e1, ← e2]
      exact List.mem_map.mpr ⟨kv2, hkv2, rfl⟩

/-- Reduction of the listing handler on an existing directory. -/
theorem list_files_dir_reduction (fs : FS) (p : String) (t0 : Nat)
    (h : fs.find (pathKey (os_path_join UPLOAD_FOLDER (stripSlashes p))) =
      some (Entry.dir t0)) :
    list_files p fs = (ListResp.ok p
      ((fs.childNames (pathKey (os_path_join UPLOAD_FOLDER (stripSlashes p)))).map
        (fun n =>
          { name := n,
            type := if fs.isDir (pathKey (os_path_join
                (os_path_join UPLOAD_FOLDER (stripSlashes p)) n)) = true
              then "directory" else "file",
            size := if fs.isDir (pathKey (os_path_join
                (os_path_join UPLOAD_FOLDER (stripSlashes p)) n)) = true
              then 0 else fs.getsize (pathKey (os_path_join
                (os_path_join UPLOAD_FOLDER (stripSlashes p)) n)),
            modified_time := fs.getmtime (pathKey (os_path_join
                (os_path_join UPLOAD_FOLDER (stripSlashes p)) n)) }))
      ((fs.childNames (pathKey (os_path_join UPLOAD_FOLDER (stripSlashes p)))).map
        (fun n =>
          ListItem.mk n
            (if fs.isDir (pathKey (os_path_join
                (os_path_join UPLOAD_FOLDER (stripSlashes p)) n)) = true
              then "directory" else "file")
            (if fs.isDir (pathKey (os_path_join
                (os_path_join UPLOAD_FOLDER (stripSlashes p)) n)) = true
              then 0 else fs.getsize (pathKey (os_path_join
                (os_path_join UPLOAD_FOLDER (stripSlashes p)) n)))
            (fs.getmtime (pathKey (os_path_join
                (os_path_join UPLOAD_FOLDER (stripSlashes p)) n))))).length,
      fs) := by
  simp only [list_files, FS.pathExists, FS.listdir]
  rw [h]
  simp

/-- C8: on a path free of dot-dot segments — per the data model a list path
denotes a subdirectory chain under the root, and on that region the lexical
resolution coincides with the kernel walk of os.path.exists/os.listdir —
naming an existing directory, the listing succeeds and reports exactly one
item per immediate child, carrying its name, kind (file or directory), size
(0 for directories, byte size for files) and last-modified time — in
particular the empty sequence for an empty directory; on a nonexistent path
it fails with PATH_NOT_FOUND (HTTP 404) and the filesystem is returned
unchanged (the handler performs no writes). -/
theorem c8_list_contract (fs : FS) (p : String) (hwf : fs.Wf) :
    (fs.find (listKeyOf p) = none →
      list_files p fs = (ListResp.pathNotFound, fs) ∧
      ListResp.pathNotFound.status = 404) ∧
    (∀ t0, (∀ s ∈ splitSlash (stripSlashes p).toList, s ≠ "..") →
      fs.find (listKeyOf p) = some (Entry.dir t0) →
      ∃ items : List ListItem,
        list_files p fs = (ListResp.ok p items items.length, fs) ∧
        (∀ n content mt,
          fs.find (listKeyOf p ++ [n]) = some (Entry.file content mt) →
            (⟨n, "file", content.length, mt⟩ : ListItem) ∈ items) ∧
        (∀ n mt, fs.find (listKeyOf p ++ [n]) = some (Entry.dir mt) →
          (⟨n, "directory", 0, mt⟩ : ListItem) ∈ items) ∧
        (∀ it ∈ items, ∃ e, fs.find (listKeyOf p ++ [it.name]) = some e ∧
          ((∃ content mt, e = Entry.file content mt ∧ it.type = "file" ∧
            it.size = content.length ∧ it.modified_time = mt) ∨
          (∃ mt, e = Entry.dir mt ∧ it.type = "directory" ∧ it.size = 0 ∧
            it.modified_time = mt))) ∧
        (items.map (fun it => it.name)).Nodup ∧
        ((∀ n, fs.find (listKeyOf p ++ [n]) = none) → items = [])) := by
  constructor
  · intro hq
    refine ⟨?_, rfl⟩
    simp only [listKeyOf] at hq
    simp only [list_files, FS.pathExists]
    rw [hq]
    simp
  · intro t0 _ hfind
    simp only [listKeyOf] at hfind ⊢
    have hcleanseg : ∀ (n : String) (e : Entry),
        ((pathKey (os_path_join UPLOAD_FOLDER (stripSlashes p))) ++ [n], e) ∈
          fs.entries → cleanSeg n = true := by
      intro n e hmem
      have hkmem : (pathKey (os_path_join UPLOAD_FOLDER (stripSlashes p)) ++ [n]) ∈
          fs.entries.map Prod.fst :=
        List.mem_map.mpr ⟨(pathKey (os_path_join UPLOAD_FOLDER (stripSlashes p)) ++ [n], e),
          hmem, rfl⟩
      exact hwf.2 _ hkmem n (by simp)
    have hkeq : ∀ n : String, cleanSeg n = true →
        pathKey (os_path_join (os_path_join UPLOAD_FOLDER (stripSlashes p)) n) =
          pathKey (os_path_join UPLOAD_FOLDER (stripSlashes p)) ++ [n] := by
      intro n hcl
      rw [pathKey_join_clean _ n hcl]
    refine ⟨_, list_files_dir_reduction fs p t0 hfind, ?_, ?_, ?_, ?_, ?_⟩
    · intro n content mt hf
      have hmem := lookupKey_mem fs.entries _ _ hf
      have hcl := hcleanseg n _ hmem
      have hn : n ∈ fs.childNames (pathKey (os_path_join UPLOAD_FOLDER (stripSlashes p))) :=
        (mem_childNames_iff fs _ n).mpr ⟨_, hmem⟩
      refine List.mem_map.mpr ⟨n, hn, ?_⟩
      show ListItem.mk n
          (if fs.isDir (pathKey (os_path_join
              (os_path_join UPLOAD_FOLDER (stripSlashes p)) n)) = true
            then "directory" else "file")
          (if fs.isDir (pathKey (os_path_join
              (os_path_join UPLOAD_FOLDER (stripSlashes p)) n)) = true
            then 0 else fs.getsize (pathKey (os_path_join
              (os_path_join UPLOAD_FOLDER (stripSlashes p)) n)))
          (fs.getmtime (pathKey (os_path_join
              (os_path_join UPLOAD_FOLDER (stripSlashes p)) n))) =
        ⟨n, "file", content.length, mt⟩
      rw [hkeq n hcl]
      unfold FS.isDir FS.getsize FS.getmtime
      rw [hf]
      simp
    · intro n mt hf
      have hmem := lookupKey_mem fs.entries _ _ hf
      have hcl := hcleanseg n _ hmem
      have hn : n ∈ fs.childNames (pathKey (os_path_join UPLOAD_FOLDER (stripSlashes p))) :=
        (mem_childNames_iff fs _ n).mpr ⟨_, hmem⟩
      refine List.mem_map.mpr ⟨n, hn, ?_⟩
      show ListItem.mk n
          (if fs.isDir (pathKey (os_path_join
              (os_path_join UPLOAD_FOLDER (stripSlashes p)) n)) = true
            then "directory" else "file")
          (if fs.isDir (pathKey (os_path_join
              (os_path_join UPLOAD_FOLDER (stripSlashes p)) n)) = true
            then 0 else fs.getsize (pathKey (os_path_join
              (os_path_join UPLOAD_FOLDER (stripSlashes p)) n)))
          (fs.getmtime (pathKey (os_path_join
              (os_path_join UPLOAD_FOLDER (stripSlashes p)) n))) =
        ⟨n, "directory", 0, mt⟩
      rw [hkeq n hcl]
      unfold FS.isDir FS.getsize FS.getmtime
      rw [hf]
      simp
    · intro it hit
      obtain ⟨n, hn, hF⟩ := List.mem_map.mp hit
      obtain ⟨e, hmem⟩ := (mem_childNames_iff fs _ n).mp hn
      have hcl := hcleanseg n e hmem
      have hf : fs.find (pathKey (os_path_join UPLOAD_FOLDER (stripSlashes p)) ++ [n]) =
          some e := lookupKey_some_of_mem fs.entries _ e hwf.1 hmem
      cases e with
      | file content mt =>
        have hitval : it = ⟨n, "file", content.length, mt⟩ := by
          rw [← hF]
          show ListItem.mk n
              (if fs.isDir (pathKey (os_path_join
                  (os_path_join UPLOAD_FOLDER (stripSlashes p)) n)) = true
                then "directory" else "file")
              (if fs.isDir (pathKey (os_path_join
                  (os_path_join UPLOAD_FOLDER (stripSlashes p)) n)) = true
                then 0 else fs.getsize (pathKey (os_path_join
                  (os_path_join UPLOAD_FOLDER (stripSlashes p)) n)))
              (fs.getmtime (pathKey (os_path_join
                  (os_path_join UPLOAD_FOLDER (stripSlashes p)) n))) =
            ⟨n, "file", content.length, mt⟩
          rw [hkeq n hcl]
          unfold FS.isDir FS.getsize FS.getmtime
          rw [hf]
          simp
        rw [hitval]
        exact ⟨Entry.file content mt, hf,
          Or.inl ⟨content, mt, rfl, rfl, rfl, rfl⟩⟩
      | dir mt =>
        have hitval : it = ⟨n, "directory", 0, mt⟩ := by
          rw [← hF]
          show ListItem.mk n
              (if fs.isDir (pathKey (os_path_join
                  (os_path_join UPLOAD_FOLDER (stripSlashes p)) n)) = true
                then "directory" else "file")
              (if fs.isDir (pathKey (os_path_join
                  (os_path_join UPLOAD_FOLDER (stripSlashes p)) n)) = true
                then 0 else fs.getsize (pathKey (os_path_join
                  (os_path_join UPLOAD_FOLDER (stripSlashes p)) n)))
              (fs.getmtime (pathKey (os_path_join
                  (os_path_join UPLOAD_FOLDER (stripSlashes p)) n))) =
            ⟨n, "directory", 0, mt⟩
          rw [hkeq n hcl]
          unfold FS.isDir FS.getsize FS.getmtime
          rw [hf]
          simp
        rw [hitval]
        exact ⟨Entry.dir mt, hf, Or.inr ⟨mt, rfl, rfl, rfl, rfl⟩⟩
    · rw [List.map_map]
      have hcomp : ((fun it : ListItem => it.name) ∘ (fun n =>
          ListItem.mk n
            (if fs.isDir (pathKey (os_path_join
                (os_path_join UPLOAD_FOLDER (stripSlashes p)) n)) = true
              then "directory" else "file")
            (if fs.isDir (pathKey (os_path_join
                (os_path_join UPLOAD_FOLDER (stripSlashes p)) n)) = true
              then 0 else fs.getsize (pathKey (os_path_join
                (os_path_join UPLOAD_FOLDER (stripSlashes p)) n)))
            (fs.getmtime (pathKey (os_path_join
                (os_path_join UPLOAD_FOLDER (stripSlashes p)) n))))) =
          (fun n : String => n) := by
        funext n
        rfl
      rw [hcomp]
      rw [show List.map (fun n : String => n)
          (fs.childNames (pathKey (os_path_join UPLOAD_FOLDER (stripSlashes p)))) =
          fs.childNames (pathKey (os_path_join UPLOAD_FOLDER (stripSlashes p))) from by
        simp]
      exact childNames_nodup _ fs.entries hwf.1
    · intro hall
      cases hcn : fs.childNames (pathKey (os_path_join UPLOAD_FOLDER (stripSlashes p))) with
      | nil => rfl
      | cons n rest =>
        exfalso
        have hn : n ∈ fs.childNames (pathKey (os_path_join UPLOAD_FOLDER (stripSlashes p))) := by
          rw [hcn]
          exact List.mem_cons_self _ _
        obtain ⟨e, hmem⟩ := (mem_childNames_iff fs _ n).mp hn
        have hf2 : fs.find (pathKey (os_path_join UPLOAD_FOLDER (stripSlashes p)) ++ [n]) =
            some e := lookupKey_some_of_mem fs.entries _ e hwf.1 hmem
        rw [hall n] at hf2
        cases hf2

/-! ### Helper lemmas for the collision claim -/

/-- A slash-stripped string never ends with a slash. -/
theorem endsWithSlash_stripSlashes (p : String) :
    endsWithSlash (stripSlashes p) = false := by
  unfold endsWithSlash stripSlashes
  simp only [decide_eq_false_iff_not]
  intro hcon
  have hcon2 : (((p.toList.dropWhile (fun c => c = '/')).reverse.dropWhile
      (fun c => c = '/')).reverse.getLast? : Option Char) = some '/' := hcon
  rw [List.getLast?_reverse] at hcon2
  have := head?_dropWhile_false (fun c => c = '/')
    (p.toList.dropWhile (fun c => c = '/')).reverse '/' hcon2
  simp at this

/-- A nonempty string has a nonempty character list. -/
theorem toList_ne_nil (s : String) (h : s ≠ "") : s.toList ≠ [] := by
  intro hx
  apply h
  cases s with
  | mk data =>
    cases hx
    rfl

/-- Joining root, path and filename associates: resolving path/fn against
the root equals resolving fn against the already-resolved directory. -/
theorem join_root_assoc (path fn : String) (hsl : startsWithSlash path = false)
    (hel : endsWithSlash path = false) (hpe : path ≠ "")
    (hfn : startsWithSlash fn = false) :
    os_path_join UPLOAD_FOLDER (path ++ "/" ++ fn) =
      os_path_join (os_path_join UPLOAD_FOLDER path) fn := by
  rw [os_path_join_root path hsl]
  have hpl : path.toList ≠ [] := toList_ne_nil path hpe
  have hsw2 : startsWithSlash (path ++ "/" ++ fn) = false := by
    unfold startsWithSlash at hsl ⊢
    simp only [decide_eq_false_iff_not] at hsl ⊢
    rw [show (path ++ "/" ++ fn).toList = path.toList ++ ("/".toList ++ fn.toList) from by
      show (path ++ "/" ++ fn).data = path.data ++ ("/".data ++ fn.data)
      rw [String.data_append, String.data_append, List.append_assoc]]
    rw [List.head?_append]
    cases hh : path.toList.head? with
    | none => exact absurd (List.head?_eq_none_iff.mp hh) hpl
    | some c =>
      rw [hh] at hsl
      simp only [Option.or_some]
      intro hx
      exact hsl hx
  rw [os_path_join_root _ hsw2]
  unfold os_path_join
  rw [if_neg (by simp [hfn]), if_neg ?hcond]
  case hcond =>
    rw [not_or]
    constructor
    · intro hx
      have hlen := congrArg String.length hx
      simp only [String.length_append] at hlen
      have h10 : UPLOAD_FOLDER.length = 10 := by decide
      have h0 : ("" : String).length = 0 := by decide
      omega
    · unfold endsWithSlash at hel ⊢
      simp only [decide_eq_false_iff_not] at hel
      simp only [decide_eq_true_eq]
      rw [show (UPLOAD_FOLDER ++ "/" ++ path).toList =
          (UPLOAD_FOLDER ++ "/").toList ++ path.toList from
        String.data_append _ _]
      rw [List.getLast?_append]
      cases hh : path.toList.getLast? with
      | none => exact absurd (List.getLast?_eq_none_iff.mp hh) hpl
      | some c =>
        rw [hh] at hel
        simp only [Option.or_some]
        intro hx
        exact hel hx
  simp only [String.append_assoc]

/-- Reduction of the upload handler without custom filename when the target
name is free: the file is stored under the sanitized original name. -/
theorem upload_no_custom_no_collision
    (fs0 fsA : FS) (d path origName : String) (c : List Nat) (k : Clock)
    (hstrip : stripSlashes path = path)
    (hN : origName ≠ "")
    (hA : allowed_file origName = true)
    (hd : (if path ≠ "" then create_directory fs0 path k.epoch
          else some (UPLOAD_FOLDER, fs0)) = some (d, fsA))
    (habs : fsA.find (pathKey (os_path_join d (secure_filename origName))) = none) :
    upload_file ⟨true, origName, c, path, ""⟩ fs0 k =
      (UploadResp.ok (secure_filename origName)
        (if path ≠ "" then path ++ "/" ++ secure_filename origName
          else secure_filename origName)
        ("http://localhost:5000/files/" ++
          (if path ≠ "" then path ++ "/" ++ secure_filename origName
            else secure_filename origName))
        c.length k.iso,
       fsA.write (pathKey (os_path_join d (secure_filename origName))) c k.epoch) := by
  simp only [upload_file]
  rw [if_neg (by simp), if_neg hN, if_neg (by simp [hA])]
  rw [hstrip]
  rw [show uploadFilename origName (stripWS "") = secure_filename origName from by
    rw [show stripWS "" = "" from rfl]
    unfold uploadFilename
    rw [if_neg (by simp)]]
  rw [hd]
  simp [FS.pathExists, habs, getsize_write_self]

/-- Reduction of the upload handler without custom filename when the target
name is taken: a timestamp is inserted between base name and extension and
the file is stored under that new name. -/
theorem upload_no_custom_collision
    (fs0 fsA : FS) (d path origName : String) (c : List Nat) (k : Clock)
    (hstrip : stripSlashes path = path)
    (hN : origName ≠ "")
    (hA : allowed_file origName = true)
    (hd : (if path ≠ "" then create_directory fs0 path k.epoch
          else some (UPLOAD_FOLDER, fs0)) = some (d, fsA))
    (hex : fsA.pathExists
      (pathKey (os_path_join d (secure_filename origName))) = true) :
    upload_file ⟨true, origName, c, path, ""⟩ fs0 k =
      (UploadResp.ok
        ((os_path_splitext (secure_filename origName)).1 ++ "_" ++ k.ymdHMS ++
          (os_path_splitext (secure_filename origName)).2)
        (if path ≠ "" then path ++ "/" ++
            ((os_path_splitext (secure_filename origName)).1 ++ "_" ++ k.ymdHMS ++
              (os_path_splitext (secure_filename origName)).2)
          else (os_path_splitext (secure_filename origName)).1 ++ "_" ++ k.ymdHMS ++
            (os_path_splitext (secure_filename origName)).2)
        ("http://localhost:5000/files/" ++
          (if path ≠ "" then path ++ "/" ++
              ((os_path_splitext (secure_filename origName)).1 ++ "_" ++ k.ymdHMS ++
                (os_path_splitext (secure_filename origName)).2)
            else (os_path_splitext (secure_filename origName)).1 ++ "_" ++ k.ymdHMS ++
              (os_path_splitext (secure_filename origName)).2))
        c.length k.iso,
       fsA.write
         (pathKey (os_path_join d
           ((os_path_splitext (secure_filename origName)).1 ++ "_" ++ k.ymdHMS ++
             (os_path_splitext (secure_filename origName)).2)))
         c k.epoch) := by
  simp only [upload_file]
  rw [if_neg (by simp), if_neg hN, if_neg (by simp [hA])]
  rw [hstrip]
  rw [show uploadFilename origName (stripWS "") = secure_filename origName from by
    rw [show stripWS "" = "" from rfl]
    unfold uploadFilename
    rw [if_neg (by simp)]]
  rw [hd]
  simp [hex, getsize_write_self]

/-- The returned directory of a successful create_directory call is the
slash-stripped path joined onto the Storage Root. -/
theorem create_directory_fullpath (fs : FS) (p : String) (now : Nat)
    (d : String) (fs2 : FS) (h : create_directory fs p now = some (d, fs2)) :
    d = os_path_join UPLOAD_FOLDER (stripSlashes p) := by
  simp only [create_directory] at h
  cases hm : fs.mkdirAll (pathKey (os_path_join UPLOAD_FOLDER (stripSlashes p))) now with
  | none => rw [hm] at h; cases h
  | some fsX => rw [hm] at h; cases h; rfl

/-- After a successful directory resolution, writing a file strictly below
the directory keeps a repeated resolution a no-op. -/
theorem dir_resolution_stable
    (fs0 fsA : FS) (d path : String) (k1e k2e : Nat) (key : List String)
    (c : List Nat) (tw : Nat)
    (hstrip : stripSlashes path = path)
    (hd : (if path ≠ "" then create_directory fs0 path k1e
          else some (UPLOAD_FOLDER, fs0)) = some (d, fsA))
    (hklen : (pathKey d).length < key.length) :
    (if path ≠ "" then create_directory (fsA.write key c tw) path k2e
      else some (UPLOAD_FOLDER, fsA.write key c tw)) =
      some (d, fsA.write key c tw) := by
  by_cases hpe : path = ""
  · subst hpe
    rw [if_neg (by simp)] at hd ⊢
    cases hd
    rfl
  · rw [if_pos hpe] at hd ⊢
    simp only [create_directory] at hd ⊢
    rw [hstrip] at hd ⊢
    cases hm : fs0.mkdirAll (pathKey (os_path_join UPLOAD_FOLDER path)) k1e with
    | none => rw [hm] at hd; cases hd
    | some fsX =>
      rw [hm] at hd
      cases hd
      have hdirs := (mkdirAlong_spec k1e _ [] fs0 fsA hm).2
      have hnoop : (fsA.write key c tw).mkdirAll
          (pathKey (os_path_join UPLOAD_FOLDER path)) k2e =
          some (fsA.write key c tw) := by
        apply mkdirAlong_noop
        intro n hn hn2
        obtain ⟨t, ht⟩ := hdirs n hn hn2
        refine ⟨t, ?_⟩
        rw [find_write_ne]
        · simpa using ht
        · intro hx
          have hlx := congrArg List.length hx
          simp only [List.nil_append, List.length_take] at hlx
          rw [Nat.min_eq_left hn2] at hlx
          omega
      rw [hnoop]

/-- Retrieval succeeds on a clean relative path that names a stored file. -/
theorem download_found (rel : String) (fs : FS) (c : List Nat) (t : Nat)
    (hsub : strHasSub rel ".." = false) (hsw : startsWithSlash rel = false)
    (hf : fs.find (pathKey (os_path_join UPLOAD_FOLDER rel)) =
      some (Entry.file c t)) :
    download_file rel fs = DownloadResp.ok c := by
  unfold download_file
  rw [if_neg (by simp [hsub, hsw])]
  simp [FS.pathExists, hf]

/-- C3: when the resolved target exists, the upload stores under the name
with a timestamp inserted between base name and extension; uploading the same
filename twice to the same path therefore yields two distinct stored files
(the second carrying the timestamp suffix), both still present with their own
contents and both retrievable through the retrieval endpoint. -/
theorem c3_collision_rename_two_uploads
    (fs0 fsA : FS) (d path origName : String) (c1 c2 : List Nat) (k1 k2 : Clock)
    (r1 r2 : UploadResp × FS)
    (hstrip : stripSlashes path = path)
    (hN : origName ≠ "")
    (hA : allowed_file origName = true)
    (hd : (if path ≠ "" then create_directory fs0 path k1.epoch
          else some (UPLOAD_FOLDER, fs0)) = some (d, fsA))
    (hc1 : cleanSeg (secure_filename origName) = true)
    (hc2 : cleanSeg ((os_path_splitext (secure_filename origName)).1 ++ "_" ++
      k2.ymdHMS ++ (os_path_splitext (secure_filename origName)).2) = true)
    (habs1 : fsA.find (pathKey (os_path_join d (secure_filename origName))) = none)
    (habs2 : fsA.find (pathKey (os_path_join d
      ((os_path_splitext (secure_filename origName)).1 ++ "_" ++ k2.ymdHMS ++
        (os_path_splitext (secure_filename origName)).2))) = none)
    (hr1 : upload_file ⟨true, origName, c1, path, ""⟩ fs0 k1 = r1)
    (hr2 : upload_file ⟨true, origName, c2, path, ""⟩ r1.2 k2 = r2) :
    r1.1 = UploadResp.ok (secure_filename origName)
      (if path ≠ "" then path ++ "/" ++ secure_filename origName
        else secure_filename origName)
      ("http://localhost:5000/files/" ++
        (if path ≠ "" then path ++ "/" ++ secure_filename origName
          else secure_filename origName)) c1.length k1.iso ∧
    r2.1 = UploadResp.ok
      ((os_path_splitext (secure_filename origName)).1 ++ "_" ++ k2.ymdHMS ++
        (os_path_splitext (secure_filename origName)).2)
      (if path ≠ "" then path ++ "/" ++
          ((os_path_splitext (secure_filename origName)).1 ++ "_" ++ k2.ymdHMS ++
            (os_path_splitext (secure_filename origName)).2)
        else (os_path_splitext (secure_filename origName)).1 ++ "_" ++ k2.ymdHMS ++
          (os_path_splitext (secure_filename origName)).2)
      ("http://localhost:5000/files/" ++
        (if path ≠ "" then path ++ "/" ++
            ((os_path_splitext (secure_filename origName)).1 ++ "_" ++ k2.ymdHMS ++
              (os_path_splitext (secure_filename origName)).2)
          else (os_path_splitext (secure_filename origName)).1 ++ "_" ++ k2.ymdHMS ++
            (os_path_splitext (secure_filename origName)).2))
      c2.length k2.iso ∧
    secure_filename origName ≠
      (os_path_splitext (secure_filename origName)).1 ++ "_" ++ k2.ymdHMS ++
        (os_path_splitext (secure_filename origName)).2 ∧
    pathKey (os_path_join d (secure_filename origName)) ≠
      pathKey (os_path_join d
        ((os_path_splitext (secure_filename origName)).1 ++ "_" ++ k2.ymdHMS ++
          (os_path_splitext (secure_filename origName)).2)) ∧
    r2.2.find (pathKey (os_path_join d (secure_filename origName))) =
      some (Entry.file c1 k1.epoch) ∧
    r2.2.find (pathKey (os_path_join d
        ((os_path_splitext (secure_filename origName)).1 ++ "_" ++ k2.ymdHMS ++
          (os_path_splitext (secure_filename origName)).2))) =
      some (Entry.file c2 k2.epoch) ∧
    (strHasSub (if path ≠ "" then path ++ "/" ++ secure_filename origName
        else secure_filename origName) ".." = false →
      startsWithSlash (if path ≠ "" then path ++ "/" ++ secure_filename origName
        else secure_filename origName) = false →
      download_file (if path ≠ "" then path ++ "/" ++ secure_filename origName
        else secure_filename origName) r2.2 = DownloadResp.ok c1) ∧
    (strHasSub (if path ≠ "" then path ++ "/" ++
        ((os_path_splitext (secure_filename origName)).1 ++ "_" ++ k2.ymdHMS ++
          (os_path_splitext (secure_filename origName)).2)
        else (os_path_splitext (secure_filename origName)).1 ++ "_" ++ k2.ymdHMS ++
          (os_path_splitext (secure_filename origName)).2) ".." = false →
      startsWithSlash (if path ≠ "" then path ++ "/" ++
        ((os_path_splitext (secure_filename origName)).1 ++ "_" ++ k2.ymdHMS ++
          (os_path_splitext (secure_filename origName)).2)
        else (os_path_splitext (secure_filename origName)).1 ++ "_" ++ k2.ymdHMS ++
          (os_path_splitext (secure_filename origName)).2) = false →
      download_file (if path ≠ "" then path ++ "/" ++
        ((os_path_splitext (secure_filename origName)).1 ++ "_" ++ k2.ymdHMS ++
          (os_path_splitext (secure_filename origName)).2)
        else (os_path_splitext (secure_filename origName)).1 ++ "_" ++ k2.ymdHMS ++
          (os_path_splitext (secure_filename origName)).2) r2.2 =
        DownloadResp.ok c2) := by
  have hup1 := upload_no_custom_no_collision fs0 fsA d path origName c1 k1
    hstrip hN hA hd habs1
  have hr1v := hr1.symm.trans hup1
  have hfs1 : r1.2 = fsA.write
      (pathKey (os_path_join d (secure_filename origName))) c1 k1.epoch := by
    rw [hr1v]
  have hklen : (pathKey d).length <
      (pathKey (os_path_join d (secure_filename origName))).length := by
    rw [pathKey_join_clean d _ hc1]
    simp
  have hd2 := dir_resolution_stable fs0 fsA d path k1.epoch k2.epoch
    (pathKey (os_path_join d (secure_filename origName))) c1 k1.epoch
    hstrip hd hklen
  have hex : (fsA.write (pathKey (os_path_join d (secure_filename origName)))
      c1 k1.epoch).pathExists
      (pathKey (os_path_join d (secure_filename origName))) = true := by
    unfold FS.pathExists
    rw [find_write_self]
    rfl
  have hr2v : r2 = (UploadResp.ok
      ((os_path_splitext (secure_filename origName)).1 ++ "_" ++ k2.ymdHMS ++
        (os_path_splitext (secure_filename origName)).2)
      (if path ≠ "" then path ++ "/" ++
          ((os_path_splitext (secure_filename origName)).1 ++ "_" ++ k2.ymdHMS ++
            (os_path_splitext (secure_filename origName)).2)
        else (os_path_splitext (secure_filename origName)).1 ++ "_" ++ k2.ymdHMS ++
          (os_path_splitext (secure_filename origName)).2)
      ("http://localhost:5000/files/" ++
        (if path ≠ "" then path ++ "/" ++
            ((os_path_splitext (secure_filename origName)).1 ++ "_" ++ k2.ymdHMS ++
              (os_path_splitext (secure_filename origName)).2)
          else (os_path_splitext (secure_filename origName)).1 ++ "_" ++ k2.ymdHMS ++
            (os_path_splitext (secure_filename origName)).2))
      c2.length k2.iso,
      (fsA.write (pathKey (os_path_join d (secure_filename origName)))
          c1 k1.epoch).write
        (pathKey (os_path_join d
          ((os_path_splitext (secure_filename origName)).1 ++ "_" ++ k2.ymdHMS ++
            (os_path_splitext (secure_filename origName)).2)))
        c2 k2.epoch) := by
    rw [← hr2, hfs1]
    exact upload_no_custom_collision
      (fsA.write (pathKey (os_path_join d (secure_filename origName))) c1 k1.epoch)
      (fsA.write (pathKey (os_path_join d (secure_filename origName))) c1 k1.epoch)
      d path origName c2 k2 hstrip hN hA hd2 hex
  have hne_fn : secure_filename origName ≠
      (os_path_splitext (secure_filename origName)).1 ++ "_" ++ k2.ymdHMS ++
        (os_path_splitext (secure_filename origName)).2 := by
    intro hx
    have hl := congrArg String.length hx
    conv_lhs at hl => rw [← os_path_splitext_append (secure_filename origName)]
    simp only [String.length_append] at hl
    have h1 : ("_" : String).length = 1 := by decide
    rw [h1] at hl
    omega
  have hkey_ne : pathKey (os_path_join d (secure_filename origName)) ≠
      pathKey (os_path_join d
        ((os_path_splitext (secure_filename origName)).1 ++ "_" ++ k2.ymdHMS ++
          (os_path_splitext (secure_filename origName)).2)) := by
    rw [pathKey_join_clean d _ hc1, pathKey_join_clean d _ hc2]
    intro hx
    simp at hx
    exact hne_fn hx
  have hfind1 : r2.2.find (pathKey (os_path_join d (secure_filename origName))) =
      some (Entry.file c1 k1.epoch) := by
    rw [hr2v]
    show ((fsA.write (pathKey (os_path_join d (secure_filename origName)))
        c1 k1.epoch).write
      (pathKey (os_path_join d
        ((os_path_splitext (secure_filename origName)).1 ++ "_" ++ k2.ymdHMS ++
          (os_path_splitext (secure_filename origName)).2))) c2 k2.epoch).find
      (pathKey (os_path_join d (secure_filename origName))) = _
    rw [find_write_ne _ _ _ _ _ hkey_ne]
    exact find_write_self _ _ _ _
  have hfind2 : r2.2.find (pathKey (os_path_join d
      ((os_path_splitext (secure_filename origName)).1 ++ "_" ++ k2.ymdHMS ++
        (os_path_splitext (secure_filename origName)).2))) =
      some (Entry.file c2 k2.epoch) := by
    rw [hr2v]
    exact find_write_self _ _ _ _
  have hsw_fn1 : startsWithSlash (secure_filename origName) = false :=
    cleanSeg_not_slash_start _ hc1
  have hsw_fn2 : startsWithSlash
      ((os_path_splitext (secure_filename origName)).1 ++ "_" ++ k2.ymdHMS ++
        (os_path_splitext (secure_filename origName)).2) = false :=
    cleanSeg_not_slash_start _ hc2
  have hslp : startsWithSlash path = false := by
    have := startsWithSlash_stripSlashes path
    rw [hstrip] at this
    exact this
  have help : endsWithSlash path = false := by
    have := endsWithSlash_stripSlashes path
    rw [hstrip] at this
    exact this
  have hjoin1 : os_path_join UPLOAD_FOLDER
      (if path ≠ "" then path ++ "/" ++ secure_filename origName
        else secure_filename origName) =
      os_path_join d (secure_filename origName) := by
    by_cases hpe : path = ""
    · subst hpe
      rw [if_neg (by simp)]
      have hdv : d = UPLOAD_FOLDER := by
        rw [if_neg (by simp)] at hd
        cases hd
        rfl
      rw [hdv]
    · rw [if_pos hpe]
      have hdv : d = os_path_join UPLOAD_FOLDER path := by
        rw [if_pos hpe] at hd
        have := create_directory_fullpath fs0 path k1.epoch d fsA hd
        rw [hstrip] at this
        exact this
      rw [hdv, ← join_root_assoc path _ hslp help hpe hsw_fn1]
  have hjoin2 : os_path_join UPLOAD_FOLDER
      (if path ≠ "" then path ++ "/" ++
          ((os_path_splitext (secure_filename origName)).1 ++ "_" ++ k2.ymdHMS ++
            (os_path_splitext (secure_filename origName)).2)
        else (os_path_splitext (secure_filename origName)).1 ++ "_" ++ k2.ymdHMS ++
          (os_path_splitext (secure_filename origName)).2) =
      os_path_join d
        ((os_path_splitext (secure_filename origName)).1 ++ "_" ++ k2.ymdHMS ++
          (os_path_splitext (secure_filename origName)).2) := by
    by_cases hpe : path = ""
    · subst hpe
      rw [if_neg (by simp)]
      have hdv : d = UPLOAD_FOLDER := by
        rw [if_neg (by simp)] at hd
        cases hd
        rfl
      rw [hdv]
    · rw [if_pos hpe]
      have hdv : d = os_path_join UPLOAD_FOLDER path := by
        rw [if_pos hpe] at hd
        have := create_directory_fullpath fs0 path k1.epoch d fsA hd
        rw [hstrip] at this
        exact this
      rw [hdv, ← join_root_assoc path _ hslp help hpe hsw_fn2]
  refine ⟨by rw [hr1v], by rw [hr2v], hne_fn, hkey_ne, hfind1, hfind2, ?_, ?_⟩
  · intro hsub hsw
    exact download_found _ r2.2 c1 k1.epoch hsub hsw (by rw [hjoin1]; exact hfind1)
  · intro hsub hsw
    exact download_found _ r2.2 c2 k2.epoch hsub hsw (by rw [hjoin2]; exact hfind2)

/-- C3 witness: uploading x.pdf twice into folder d stores x.pdf and then
x_20250101_120005.pdf, two distinct files that both remain retrievable. -/
theorem c3_collision_rename_two_uploads_witness :
    download_file "d/x.pdf"
      ⟨[(["app", "files", "d", "x_20250101_120005.pdf"], Entry.file [7, 8] 105),
        (["app", "files", "d", "x.pdf"], Entry.file [1, 2, 3] 100),
        (["app", "files", "d"], Entry.dir 100),
        (["app", "files"], Entry.dir 0), (["app"], Entry.dir 0),
        ([], Entry.dir 0)]⟩ = DownloadResp.ok [1, 2, 3] ∧
    download_file "d/x_20250101_120005.pdf"
      ⟨[(["app", "files", "d", "x_20250101_120005.pdf"], Entry.file [7, 8] 105),
        (["app", "files", "d", "x.pdf"], Entry.file [1, 2, 3] 100),
        (["app", "files", "d"], Entry.dir 100),
        (["app", "files"], Entry.dir 0), (["app"], Entry.dir 0),
        ([], Entry.dir 0)]⟩ = DownloadResp.ok [7, 8] ∧
    ("x.pdf" : String) ≠ "x_20250101_120005.pdf" := by
  have h := c3_collision_rename_two_uploads initFS
    ⟨[(["app", "files", "d"], Entry.dir 100), (["app", "files"], Entry.dir 0),
      (["app"], Entry.dir 0), ([], Entry.dir 0)]⟩
    "/app/files/d" "d" "x.pdf" [1, 2, 3] [7, 8]
    ⟨"20250101_120000", "i1", 100⟩ ⟨"20250101_120005", "i2", 105⟩
    (UploadResp.ok "x.pdf" "d/x.pdf" "http://localhost:5000/files/d/x.pdf" 3 "i1",
      ⟨[(["app", "files", "d", "x.pdf"], Entry.file [1, 2, 3] 100),
        (["app", "files", "d"], Entry.dir 100),
        (["app", "files"], Entry.dir 0), (["app"], Entry.dir 0),
        ([], Entry.dir 0)]⟩)
    (UploadResp.ok "x_20250101_120005.pdf" "d/x_20250101_120005.pdf"
        "http://localhost:5000/files/d/x_20250101_120005.pdf" 2 "i2",
      ⟨[(["app", "files", "d", "x_20250101_120005.pdf"], Entry.file [7, 8] 105),
        (["app", "files", "d", "x.pdf"], Entry.file [1, 2, 3] 100),
        (["app", "files", "d"], Entry.dir 100),
        (["app", "files"], Entry.dir 0), (["app"], Entry.dir 0),
        ([], Entry.dir 0)]⟩)
    (by decide) (by decide) (by decide) (by decide) (by decide) (by decide)
    (by decide) (by decide) (by decide) (by decide)
  obtain ⟨h1, h2, h3, h4, h5, h6, h7, h8⟩ := h
  exact ⟨h7 (by decide) (by decide), h8 (by decide) (by decide), h3⟩

/-- C8 witness: listing an existing directory with two stored files succeeds
and reports both, returning the filesystem unchanged. -/
theorem c8_list_contract_witness :
    ∃ items : List ListItem,
      list_files "d"
        ⟨[(["app", "files", "d", "b.txt"], Entry.file [1, 2] 9),
          (["app", "files", "d"], Entry.dir 5),
          (["app", "files"], Entry.dir 0), (["app"], Entry.dir 0),
          ([], Entry.dir 0)]⟩ =
        (ListResp.ok "d" items items.length,
          ⟨[(["app", "files", "d", "b.txt"], Entry.file [1, 2] 9),
            (["app", "files", "d"], Entry.dir 5),
            (["app", "files"], Entry.dir 0), (["app"], Entry.dir 0),
            ([], Entry.dir 0)]⟩) ∧
      (⟨"b.txt", "file", 2, 9⟩ : ListItem) ∈ items := by
  obtain ⟨items, hitems, hfile, _⟩ := (c8_list_contract
    ⟨[(["app", "files", "d", "b.txt"], Entry.file [1, 2] 9),
      (["app", "files", "d"], Entry.dir 5),
      (["app", "files"], Entry.dir 0), (["app"], Entry.dir 0),
      ([], Entry.dir 0)]⟩ "d" (by decide)).2 5 (by decide) (by decide)
  exact ⟨items, hitems, hfile "b.txt" [1, 2] 9 (by decide)⟩
